import Mathlib

/-!
Verification of the multi-corpus Tamil verse matcher
(`src/models/semantic_analyzer_multi.py` together with
`src/models/text_processor.py`).

Strings are modelled as `List Char` (`Str`).  Python float scores are
modelled exactly over the integers / rationals: every candidate score the
code produces is an integer (`int(...)` truncation of a non-negative float
is rational floor, realised here by `Nat` division), and the structural
boost multipliers 1.35 / 1.30 / 0.75 / 1.0 are carried scaled by 100
(`boost100`), so that `verse_score = 100 * kamba_boost` is the integer
`boost100`.  The two fuzzywuzzy similarity functions
(`fuzz.token_set_ratio`, `fuzz.partial_ratio`) are third-party library
calls; they are modelled as an oracle (`FuzzOracle`), with their
documented 0..100 range available as the `FuzzOracle.Bounded` hypothesis.
-/

abbrev Str := List Char

/-- Shorthand turning a string literal into the `List Char` representation. -/
def tl (s : String) : Str := s.toList

/-- Characters of the Tamil Unicode block U+0B80 .. U+0BFF
(`text_processor.py`, `tamil_pattern`). -/
def isTamilChar (c : Char) : Bool :=
  0x0B80 ≤ c.toNat && c.toNat ≤ 0x0BFF

/-- Python `\s` / `str.split()` whitespace (ASCII part, which is all the
pipeline's Tamil data can contain). -/
def isPySpace (c : Char) : Bool :=
  c == ' ' || c == '\n' || c == '\t' || c == '\r' || c == '\x0b' || c == '\x0c'

/-- Python `str.isdigit` restricted to the characters that can reach the
matcher: ASCII digits and Tamil digits U+0BE6 .. U+0BEF. -/
def isPyDigit (c : Char) : Bool :=
  ('0' ≤ c && c ≤ '9') || (0xBE6 ≤ c.toNat && c.toNat ≤ 0xBEF)

/-- Python `str.split()` (split on whitespace runs, dropping empty parts);
`cur` accumulates the current word in reverse. -/
def pySplitAux : Str → Str → List Str
  | [], cur => if cur = [] then [] else [cur.reverse]
  | c :: rest, cur =>
    if isPySpace c then
      if cur = [] then pySplitAux rest [] else cur.reverse :: pySplitAux rest []
    else
      pySplitAux rest (c :: cur)

/-- Python `str.split()` with no separator argument. -/
def pySplit (s : Str) : List Str := pySplitAux s []

/-- Join words with single spaces; `' '.join(words)`. -/
def joinSpace (ws : List Str) : Str := (ws.intersperse [' ']).flatten

/-- Python `str.strip()`. -/
def stripWS (s : Str) : Str :=
  ((s.dropWhile isPySpace).reverse.dropWhile isPySpace).reverse

/-- `TamilTextProcessor.clean_text`: collapse whitespace runs to a single
space and trim — equal to `' '.join(text.split())`. -/
def cleanText (s : Str) : Str := joinSpace (pySplit s)

/-- Characters kept by `normalize_text`'s regex
`re.sub(r'[^஀-௿\s]', '', text)`. -/
def keepTamilOrSpace (c : Char) : Bool := isTamilChar c || isPySpace c

/-- `TamilTextProcessor.normalize_text`: drop non-Tamil non-space
characters, collapse whitespace, trim. -/
def normalizeText (s : Str) : Str := joinSpace (pySplit (s.filter keepTamilOrSpace))

/-- `TamilTextProcessor.is_valid_tamil`: the text contains at least one
Tamil-block character. -/
def isValidTamil (s : Str) : Bool := s.any isTamilChar

/-- `TamilTextProcessor.preprocess_for_analysis`: clean, then demand Tamil
content (returning the empty string otherwise). -/
def preprocessForAnalysis (s : Str) : Str :=
  let c := cleanText s
  if isValidTamil c then c else []

/-- `leadsWith a b` : `a` is a leading segment of `b`
(Python `str.startswith`). -/
def leadsWith : Str → Str → Bool
  | [], _ => true
  | _ :: _, [] => false
  | a :: as_, b :: bs => a == b && leadsWith as_ bs

/-- Python `str.endswith`. -/
def endsWith (a b : Str) : Bool := leadsWith a.reverse b.reverse

/-- Python substring containment `a in b`. -/
def isSub : Str → Str → Bool
  | a, [] => a.isEmpty
  | a, c :: t => leadsWith a (c :: t) || isSub a t

/-- Modern verb endings (`verb_endings`, semantic_analyzer_multi.py lines
93-101). -/
def verbEndings : List Str :=
  [tl "கிறேன்", tl "கிறாய்", tl "கிறார்", tl "கிறோம்", tl "கிறீர்", tl "கிறார்கள்",
   tl "கிறது", tl "கின்றன",
   tl "வேன்", tl "வாய்", tl "வார்", tl "வோம்", tl "வீர்", tl "வார்கள்",
   tl "தேன்", tl "தாய்", tl "தார்", tl "தோம்", tl "தீர்", tl "தார்கள்",
   tl "ந்தேன்", tl "ந்தாய்", tl "ந்தார்", tl "ந்தோம்",
   tl "ட்டேன்", tl "ட்டாய்", tl "ட்டார்", tl "ட்டோம்",
   tl "க்கிறேன்", tl "ப்பேன்", tl "ப்போம்"]

/-- Modern time indicators (`time_indicators`, lines 104-108). -/
def timeIndicators : List Str :=
  [tl "இன்று", tl "நேற்று", tl "நாளை", tl "இன்றைக்கு", tl "நேற்றைக்கு",
   tl "காலையில்", tl "மாலையில்", tl "இரவில்", tl "மதியம்",
   tl "இப்போது", tl "அப்போது", tl "பிறகு", tl "முன்பு"]

/-- Modern object nouns (`modern_words`, lines 111-115). -/
def modernWords : List Str :=
  [tl "புத்தகம்", tl "பள்ளி", tl "கார்", tl "பேருந்து", tl "ரயில்",
   tl "கணினி", tl "போன்", tl "டிவி", tl "பணம்", tl "ஊர்",
   tl "வீட்டில்", tl "கடை", tl "மார்க்கெட்", tl "ஆபீஸ்", tl "வேலை"]

/-- Kamba Ramayanam character names used by the structural pre-check
(line 140, six names). -/
def kambaChars6 : List Str :=
  [tl "இராமன்", tl "சீதை", tl "லட்சுமணன்", tl "இராவணன்", tl "அனுமன்", tl "தசரதன்"]

/-- Kamba Ramayanam character names used inside the per-book loop
(lines 192-194; the source list repeats a name, kept verbatim). -/
def kambaChars16 : List Str :=
  [tl "இராமன்", tl "சீதை", tl "லட்சுமணன்", tl "இராவணன்", tl "அனுமன்", tl "தசரதன்",
   tl "அனுமன்", tl "பரதன்", tl "சுக்ரீவன்", tl "விபீஷணன்", tl "கைகேயி", tl "வாலி",
   tl "கும்பகர்ணன்", tl "இந்திரஜித்", tl "ஜடாயு", tl "மாரீசன்"]

/-- `query_word_count = len(normalized_query.split())`. -/
def wordCount (s : Str) : ℕ := (pySplit s).length

/-- `query_lines = normalized_query.count('\n') + 1`. -/
def lineCount (s : Str) : ℕ := s.count '\n' + 1

/-- `has_modern_verb` (line 118): some word ends with a modern verb
ending. -/
def hasModernVerb (s : Str) : Bool :=
  (pySplit s).any (fun w => verbEndings.any (fun e => endsWith e w))

/-- `has_time_indicator` (line 122). -/
def hasTimeIndicator (s : Str) : Bool :=
  (pySplit s).any (fun w => timeIndicators.contains w)

/-- `has_modern_word` (line 123). -/
def hasModernWord (s : Str) : Bool :=
  (pySplit s).any (fun w => modernWords.contains w)

/-- `is_modern_sentence` (line 126). -/
def isModernSentence (s : Str) : Bool :=
  hasModernVerb s || (hasTimeIndicator s && decide (2 ≤ wordCount s)) || hasModernWord s

/-- `is_short_query = query_word_count <= 3` (line 130). -/
def isShortQuery (s : Str) : Bool := decide (wordCount s ≤ 3)

/-- `has_kamba_character` over the six-name list (line 141). -/
def hasKambaChar6 (s : Str) : Bool := kambaChars6.any (fun n => isSub n s)

/-- `has_kamba_character` over the sixteen-name list (line 195). -/
def hasKambaChar16 (s : Str) : Bool := kambaChars16.any (fun n => isSub n s)

/-- Thirukkural shape: exactly 2 lines and 6-10 words.  The code computes
this same expression twice (`looks_like_thirukkural`, line 137, and
`is_thirukkural_structure`, lines 207-210). -/
def isThirukkuralStructure (s : Str) : Bool :=
  decide (lineCount s = 2) && decide (6 ≤ wordCount s) && decide (wordCount s ≤ 10)

/-- `looks_like_kamba` (line 142): long or multi-line or has one of the
six character names. -/
def looksLikeKamba (s : Str) : Bool :=
  decide (10 < wordCount s) || decide (2 < lineCount s) || hasKambaChar6 s

/-- `looks_like_verse` (line 145). -/
def looksLikeVerse (s : Str) : Bool := isThirukkuralStructure s || looksLikeKamba s

/-- `strict_sentence_mode` (lines 151-157). -/
def strictMode (s : Str) : Bool :=
  !looksLikeVerse s &&
    ((isModernSentence s && decide (2 ≤ wordCount s)) || isShortQuery s)

/-- Length-banded base threshold (lines 162-167). -/
def lengthBand (len : ℕ) : ℕ :=
  if 100 < len then 50 else if 50 < len then 48 else 50

/-- The `threshold` variable after the strict-mode override (lines
162-171): 98 in strict sentence mode, otherwise the length band. -/
def classifierThreshold (s : Str) : ℕ :=
  if strictMode s then 98 else lengthBand s.length

/-- `is_number_search = normalized_query.strip().isdigit()` (line 174). -/
def isNumberSearch (s : Str) : Bool :=
  let t := stripWS s
  !t.isEmpty && t.all isPyDigit

/-- `is_kamba_structure` (lines 216-220), computed per book with the
sixteen-name list. -/
def isKambaStructure (s : Str) : Bool :=
  hasKambaChar16 s || decide (10 < wordCount s) || decide (2 < lineCount s)

/-- One verse record, with the four fields the scoring pipeline reads:
`verse_number` (already `str(...)`-converted), `verse` text, the
`meaning` gloss, and the `chapter`/`kandam` grouping label
(`verse_data.get('chapter', verse_data.get('kandam', ''))`). -/
structure VerseRecord where
  verse_number : Str
  verse : Str
  meaning : Str
  chapter : Str
deriving DecidableEq

/-- The two corpora searched by `_fuzzy_search_all_books`. -/
inductive BookKey
  | thirukkural
  | kamba
deriving DecidableEq

/-- The `book_key` string stored in results. -/
def bookKeyStr : BookKey → Str
  | .thirukkural => tl "thirukkural"
  | .kamba => tl "kamba_ramayanam"

/-- Oracle for the two fuzzywuzzy similarity calls:
`tokenSetSim` models `fuzz.token_set_ratio`,
`partSim` models `fuzz.partial_ratio`. -/
structure FuzzOracle where
  tokenSetSim : Str → Str → ℕ
  partSim : Str → Str → ℕ

/-- fuzzywuzzy ratios lie in 0..100. -/
def FuzzOracle.Bounded (fz : FuzzOracle) : Prop :=
  ∀ a b : Str, fz.tokenSetSim a b ≤ 100 ∧ fz.partSim a b ≤ 100

/-- A concrete oracle (used for closed evaluations whose scoring path
never consults the fuzzy ratios). -/
def zeroFuzz : FuzzOracle := ⟨fun _ _ => 0, fun _ _ => 0⟩

/-- `len(set(normalized_query.split()))`. -/
def wordSetSize (s : Str) : ℕ := (pySplit s).dedup.length

/-- `len(set(q.split()) & set(v.split()))` — the number of distinct query
words that also occur among the verse words. -/
def commonCount (q v : Str) : ℕ :=
  ((pySplit q).dedup.filter (fun w => (pySplit v).contains w)).length

/-- Placeholder records: verse text starting with a "missing content"
marker (line 267). -/
def isPlaceholderVerse (s : Str) : Bool :=
  leadsWith (tl "திருக்குறள்") s || leadsWith (tl "[திருக்குறள்") s

/-- Substring-containment scoring branch (lines 271-294).  The overlap
ratio `c/s` (with `c = commonCount`, `s = wordSetSize`, ratio 0 when the
query word set is empty) is compared by cross-multiplication, and
`int(70 * overlap_ratio)` is the `Nat` division `70 * c / s`. -/
def containmentScore (nq nv : Str) : ℕ :=
  let ql := nq.length
  let vl := nv.length
  if 8 * vl ≤ 10 * ql then 95        -- query_len >= verse_len * 0.8
  else if 5 * vl ≤ 10 * ql then 85   -- query_len >= verse_len * 0.5
  else
    let s := wordSetSize nq
    let c := commonCount nq nv
    if s ≠ 0 ∧ s ≤ 2 * c then 80     -- overlap_ratio >= 0.5
    else 70 * c / s                  -- int(70 * overlap_ratio)

/-- Fuzzy-branch validation (lines 306-360).  Arguments: `fs` the raw
fuzzy score `max(token_set_ratio, partial_ratio)`, `ql`/`vl` the
normalized query/verse lengths (for `length_ratio`), `s` the query word
set size, `c` the common word count.  All float comparisons on the
overlap ratio `c/s` (0 when `s = 0`) and on `length_ratio = ql/vl`
(0 when `vl = 0`) are exact rational comparisons by cross-multiplication,
and each `int(...)` truncation is a `Nat` division. -/
def fuzzyValidate (fs ql vl s c : ℕ) : ℕ :=
  if 95 ≤ fs then
    if vl ≠ 0 ∧ 3 * vl ≤ 5 * ql then fs        -- length_ratio >= 0.6
    else if s ≤ 3 then
      (if s = 0 ∨ c < s then 0 else fs)        -- overlap_ratio < 1.0
    else
      (if s = 0 ∨ 5 * c < 3 * s then 0 else fs) -- overlap_ratio < 0.6
  else
    if s ≤ 3 then
      (if s = 0 ∨ 10 * c < 7 * s then fs * c / s else fs) -- < 0.7: int(fs*ov)
    else
      if 85 ≤ fs then
        if 5 * c < 2 * s then fs * c * 15 / (s * 10)      -- int(fs*ov*1.5)
        else if 5 * c < 3 * s then fs * 85 / 100          -- int(fs*0.85)
        else fs
      else
        if 2 * c < s then fs * c * 12 / (s * 10)          -- int(fs*ov*1.2)
        else if 10 * c < 7 * s then fs * 65 / 100         -- int(fs*0.65)
        else fs

/-- Fuzzy-matching branch for one verse (lines 297-360). -/
def fuzzyPathScore (fz : FuzzOracle) (nq nv : Str) : ℕ :=
  let fs := max (fz.tokenSetSim nq nv) (fz.partSim nq nv)
  fuzzyValidate fs nq.length nv.length (wordSetSize nq) (commonCount nq nv)

/-- `verse_score` for one record (lines 263-360).  `boost100` is the
book's structural boost times 100, so the exact-match branch
`verse_score = 100 * kamba_boost` is the integer `boost100`. -/
def verseFieldScore (fz : FuzzOracle) (nq : Str) (boost100 : ℕ) (v : VerseRecord) : ℕ :=
  if isPlaceholderVerse v.verse then 0
  else
    let nv := normalizeText v.verse
    if nq = nv then boost100
    else if isSub nq nv || isSub nv nq then containmentScore nq nv
    else fuzzyPathScore fz nq nv

/-- `chapter_score` (lines 362-367): computed only for short queries
(`query_length < 30`), floored to 0 below 70. -/
def chapterFieldScore (fz : FuzzOracle) (nq : Str) (qlen : ℕ) (v : VerseRecord) : ℕ :=
  if qlen < 30 then
    let cs := fz.partSim nq (normalizeText v.chapter)
    if cs < 70 then 0 else cs
  else 0

/-- Final per-candidate score (lines 369-375): best of verse and chapter
score, then the per-candidate strict-mode veto. -/
def candScore (fz : FuzzOracle) (nq : Str) (strictq : Bool) (qlen boost100 : ℕ)
    (v : VerseRecord) : ℕ :=
  let s := max (verseFieldScore fz nq boost100 v) (chapterFieldScore fz nq qlen v)
  if strictq ∧ s < 95 then 0 else s

/-- The running best candidate (`best_match` plus `best_score`), together
with the current `threshold` variable (which the kamba book iteration can
lower, lines 226-229). -/
structure MatchResult where
  record : VerseRecord
  match_score : ℕ
  book_key : BookKey
  boost_applied : Option ℕ  -- boost times 100; absent on a number-search hit
deriving DecidableEq

structure SearchState where
  best : Option MatchResult
  bestScore : ℕ
  threshold : ℕ
deriving DecidableEq

/-- Structural boost for one book (lines 222-235), times 100. -/
def bookBoost100 : BookKey → Str → ℕ
  | .thirukkural, nq =>
    if isThirukkuralStructure nq then 135
    else if isKambaStructure nq then 75
    else 100
  | .kamba, nq =>
    if isKambaStructure nq then 130
    else if isThirukkuralStructure nq then 75
    else 100

/-- Per-book threshold adjustment (lines 226, 229). -/
def bookThreshold : BookKey → Str → ℕ → ℕ
  | .thirukkural, nq, th => if isThirukkuralStructure nq then min th 40 else th
  | .kamba, nq, th => if isKambaStructure nq then min th 42 else th

/-- The `if score > best_score and score >= threshold` update
(lines 377-384). -/
def scanVerse (fz : FuzzOracle) (nq : Str) (strictq : Bool) (qlen : ℕ)
    (bk : BookKey) (boost100 : ℕ) (st : SearchState) (v : VerseRecord) : SearchState :=
  let sc := candScore fz nq strictq qlen boost100 v
  if st.bestScore < sc ∧ st.threshold ≤ sc then
    { st with best := some ⟨v, sc, bk, some boost100⟩, bestScore := sc }
  else st

/-- One iteration of the outer book loop (lines 184-384), scoring case
(the number-search case is handled separately in
`fuzzySearchAllBooks`). -/
def scanBook (fz : FuzzOracle) (nq : Str) (strictq : Bool) (qlen : ℕ)
    (bk : BookKey) (verses : List VerseRecord) (st : SearchState) : SearchState :=
  let st' : SearchState := { st with threshold := bookThreshold bk nq st.threshold }
  verses.foldl (scanVerse fz nq strictq qlen bk (bookBoost100 bk nq)) st'

/-- Number-search over one book (lines 241-250): the first verse whose
`verse_number` equals the stripped query returns immediately with score
100 (and no `boost_applied` key). -/
def numberFind (bk : BookKey) (verses : List VerseRecord) (key : Str) : Option MatchResult :=
  (verses.find? (fun v => v.verse_number == key)).map (fun v => ⟨v, 100, bk, none⟩)

/-- `_fuzzy_search_all_books` (lines 66-397), for the two loaded books.
The final strict-sentence check (lines 392-395) discards a winner whose
score stayed below 95. -/
def fuzzySearchAllBooks (fz : FuzzOracle) (thk kmb : List VerseRecord) (query : Str) :
    Option MatchResult :=
  let nq := normalizeText query
  let qlen := nq.length
  let strictq := strictMode nq
  let th0 := classifierThreshold nq
  if isNumberSearch nq then
    match numberFind .thirukkural thk (stripWS nq) with
    | some m => some m
    | none => numberFind .kamba kmb (stripWS nq)
  else
    let st1 := scanBook fz nq strictq qlen .thirukkural thk ⟨none, 0, th0⟩
    let st2 := scanBook fz nq strictq qlen .kamba kmb st1
    match st2.best with
    | some m => if strictq ∧ m.match_score < 95 then none else some m
    | none => none

/-- The sentiment block produced by `_analyze_sentiment`
(lines 883-955). -/
structure SentimentResult where
  label : Str
  score : ℚ
  positive_words : ℕ
  negative_words : ℕ
  neutral_words : ℕ
deriving DecidableEq

/-- Positive sentiment keywords (lines 894-903). -/
def positiveWords : List Str :=
  [tl "மகிழ்ச்சி", tl "சந்தோஷம்", tl "மகிழ்வு", tl "இன்பம்", tl "அன்பு", tl "பாசம்",
   tl "நம்பிக்கை", tl "தைரியம்", tl "ஆர்வம்", tl "உற்சாகம்", tl "அமைதி", tl "நன்மை",
   tl "நல்ல", tl "அழகான", tl "சிறந்த", tl "மரியாதை", tl "நன்றி", tl "நட்பு",
   tl "சிரிப்பு", tl "மகிழ்", tl "சந்தோஷ", tl "இனிமை", tl "வெற்றி", tl "வளர்ச்சி",
   tl "ஆரோக்கியம்", tl "நலம்", tl "செல்வம்", tl "புகழ்", tl "பெருமை", tl "ஆனந்தம்",
   tl "மகிழ்ந்து", tl "சந்தோஷமாக", tl "நன்றாக", tl "அருமை", tl "சிறப்பு",
   tl "அற்புதம்", tl "இனிய", tl "நல்வாழ்வு", tl "சுகம்", tl "இன்", tl "பயன்",
   tl "ஊக்கம்", tl "ஆதரவு", tl "பாராட்டு", tl "வாழ்த்து", tl "போற்று"]

/-- Negative sentiment keywords (lines 905-914). -/
def negativeWords : List Str :=
  [tl "துக்கம்", tl "கவலை", tl "பயம்", tl "கோபம்", tl "வருத்தம்", tl "ஏமாற்றம்",
   tl "வெறுப்பு", tl "பொறாமை", tl "சோர்வு", tl "அலுப்பு", tl "வெட்கம்", tl "துன்பம்",
   tl "மனபாரம்", tl "மனசுமை", tl "மனஅழுத்தம்", tl "தீமை", tl "கெட்ட", tl "மோசமாக",
   tl "வலி", tl "நோய்", tl "தோல்வி", tl "இழப்பு", tl "கஷ்டம்", tl "சிரமம்",
   tl "அழுகை", tl "கண்ணீர்", tl "கசப்பு", tl "வேதனை", tl "வருந்தி", tl "கோபமாக",
   tl "பாரம்", tl "சுமை", tl "பளு", tl "மன இறுக்கம்", tl "அச்சம்", tl "பீதி",
   tl "வெறுப்பு", tl "வெறுக்", tl "பகை", tl "எதிர்", tl "கெடு", tl "அழி",
   tl "நஷ்டம்", tl "தண்டனை", tl "குற்றம்", tl "பாவம்", tl "தவறு"]

/-- Neutral keywords (lines 916-920). -/
def neutralWords : List Str :=
  [tl "செய்", tl "போ", tl "வா", tl "இரு", tl "பார்", tl "கேள்", tl "சொல்", tl "எழுது",
   tl "படி", tl "சாப்பிடு", tl "குடி", tl "தூங்கு", tl "நட", tl "ஓடு", tl "இன்று",
   tl "நேற்று", tl "நாளை", tl "இப்போது", tl "பிறகு", tl "முன்பு"]

/-- `sum(1 for word in words if any(key in word for key in keys))`:
how many words contain some keyword as a substring. -/
def keywordHits (ws keys : List Str) : ℕ :=
  (ws.filter (fun w => keys.any (fun k => isSub k w))).length

/-- Python `round(x, 2)` modelled as round-half-up on exact rationals
(the code's score values never sit on a half-cent boundary). -/
def roundTo2 (x : ℚ) : ℚ := ((Rat.floor (x * 100 + 1/2) : ℤ) : ℚ) / 100

/-- `_analyze_sentiment` (lines 883-955). -/
def analyzeSentiment (text : Str) : SentimentResult :=
  let words := pySplit text
  let pos := keywordHits words positiveWords
  let neg := keywordHits words negativeWords
  let neu := keywordHits words neutralWords
  let total := pos + neg
  if total = 0 then
    ⟨tl "நடுநிலை (Neutral)", roundTo2 (1/2), pos, neg, neu⟩
  else if neg < pos then
    ⟨tl "நேர்மறை (Positive)", roundTo2 (7/10 + (pos : ℚ) / (total * 2)), pos, neg, neu⟩
  else if pos < neg then
    ⟨tl "எதிர்மறை (Negative)", roundTo2 (3/10 - (neg : ℚ) / (total * 2)), pos, neg, neu⟩
  else
    ⟨tl "கலப்பு (Mixed)", roundTo2 (1/2), pos, neg, neu⟩

/-- The analysis result surface used by the claims: `found`, `source`
(a book key, or `unknown` / `invalid` / `random_text`), the verse
`number`, `confidence = match_score / 100`, and the fallback sentiment
block.  (The code's result dictionaries also copy further verse and book
metadata fields not modelled here.) -/
structure AnalysisResult where
  found : Bool
  source : Str
  number : Option Str
  confidence : Option ℚ
  sentiment : Option SentimentResult

/-- `MultiLiteratureSemanticAnalyzer.analyze` (lines 399-476), with the
fallback `_generate_generic_analysis` (lines 478-509) contributing the
found=false / `random_text` / confidence 0.0 / sentiment result. -/
def analyze (fz : FuzzOracle) (thk kmb : List VerseRecord) (text : Str) : AnalysisResult :=
  if stripWS text = [] then
    ⟨false, tl "unknown", none, none, none⟩
  else
    let cleaned := preprocessForAnalysis text
    if cleaned = [] then
      ⟨false, tl "invalid", none, none, none⟩
    else
      match fuzzySearchAllBooks fz thk kmb cleaned with
      | some m =>
        ⟨true, bookKeyStr m.book_key, some m.record.verse_number,
         some ((m.match_score : ℚ) / 100), none⟩
      | none =>
        ⟨false, tl "random_text", some [], some 0, some (analyzeSentiment cleaned)⟩

/-- Forget the gloss field of a record (for the meaning-independence
claim). -/
def eraseMeaning (v : VerseRecord) : VerseRecord := { v with meaning := [] }

/-- The match decision: which verse of which book won, with what score
and boost. -/
def decisionOf (m : MatchResult) : Str × BookKey × ℕ × Option ℕ :=
  (m.record.verse_number, m.book_key, m.match_score, m.boost_applied)

/-- Modelled from the spec: the claimed containment banding, measured
against the LONGER of the two strings ("score banded by length ratio:
at least 80 percent of the longer string gives 95; at least 50 percent
gives 85; below that, 80 on word overlap at least 50 percent, else
70 times the overlap ratio").  For comparison with the code's
`containmentScore`. -/
def containmentScoreClaim (nq nv : Str) : ℕ :=
  let shorter := min nq.length nv.length
  let longer := max nq.length nv.length
  if 8 * longer ≤ 10 * shorter then 95
  else if 5 * longer ≤ 10 * shorter then 85
  else
    let s := wordSetSize nq
    let c := commonCount nq nv
    if s ≠ 0 ∧ s ≤ 2 * c then 80
    else 70 * c / s

/-- An 11-word, 32-character pure-Tamil query (11 two-letter words).
Having more than 10 words it is `kamba`-structured, so the thirukkural
book scores it with the 0.75 penalty boost and the kamba book with the
1.30 boost. -/
def q11 : Str := tl "கக கங கச கஞ கட கண கத கந கப கம கய"

/-- A thirukkural record whose verse text is exactly `q11`. -/
def recQ11Thk : VerseRecord := ⟨tl "1", q11, tl "பொருள்", tl ""⟩

/-- A kamba record whose verse text is exactly `q11`. -/
def recQ11Kmb : VerseRecord := ⟨tl "7", q11, tl "பொருள்", tl ""⟩

/-- A 53-character thirukkural verse containing `q11` as a strict
substring (query length 32 is between 50 and 80 percent of 53). -/
def recV1 : VerseRecord :=
  ⟨tl "2", q11 ++ tl " ரரரரரரரரரர லலலலலலலலல", tl "", tl ""⟩

/-- A 73-character kamba verse containing `q11` as a strict substring
(query length 32 is below 50 percent of 73, with full word overlap). -/
def recV2 : VerseRecord :=
  ⟨tl "3", q11 ++ tl " ரரரரரரரரரரரரரரரரரரரர லலலலலலலலலலலலலலலலலலல", tl "", tl ""⟩

/-- A record with verse number "26" (for the number-search claim). -/
def rec26 : VerseRecord := ⟨tl "26", tl "கக", tl "", tl ""⟩

/-- A two-word verse with no structural cue: neutral boost 1.0. -/
def recTwoWords : VerseRecord := ⟨tl "4", tl "கங கச", tl "", tl ""⟩

/-- A modern Tamil sentence: two words, the second ending with the verb
ending that marks modern sentences. -/
def modernSentence : Str := tl "நான் செல்கிறேன்"

/-- Search-state invariant tying `best` and `bestScore` together. -/
def StateOK (st : SearchState) : Prop :=
  (st.best = none → st.bestScore = 0) ∧
  (∀ m, st.best = some m → m.match_score = st.bestScore)

theorem mem_of_leadsWith {a b : Str} {c : Char} (h : leadsWith a b = true) (hc : c ∈ a) :
    c ∈ b := by
  induction a generalizing b with
  | nil => cases hc
  | cons x xs ih =>
    cases b with
    | nil => simp [leadsWith] at h
    | cons y ys =>
      simp only [leadsWith, Bool.and_eq_true, beq_iff_eq] at h
      rcases List.mem_cons.mp hc with rfl | hc'
      · exact h.1 ▸ List.mem_cons_self _ _
      · exact List.mem_cons_of_mem _ (ih h.2 hc')

theorem length_le_of_leadsWith {a b : Str} (h : leadsWith a b = true) :
    a.length ≤ b.length := by
  induction a generalizing b with
  | nil => simp
  | cons x xs ih =>
    cases b with
    | nil => simp [leadsWith] at h
    | cons y ys =>
      simp only [leadsWith, Bool.and_eq_true] at h
      simpa using ih h.2

theorem mem_of_endsWith {a b : Str} {c : Char} (h : endsWith a b = true) (hc : c ∈ a) :
    c ∈ b := by
  have := mem_of_leadsWith h (List.mem_reverse.mpr hc)
  exact List.mem_reverse.mp this

theorem mem_of_isSub {a b : Str} {c : Char} (h : isSub a b = true) (hc : c ∈ a) : c ∈ b := by
  induction b with
  | nil =>
    simp only [isSub, List.isEmpty_iff] at h
    subst h; cases hc
  | cons y ys ih =>
    simp only [isSub, Bool.or_eq_true] at h
    rcases h with h | h
    · exact mem_of_leadsWith h hc
    · exact List.mem_cons_of_mem _ (ih h)

theorem length_le_of_isSub {a b : Str} (h : isSub a b = true) : a.length ≤ b.length := by
  induction b with
  | nil =>
    simp only [isSub, List.isEmpty_iff] at h
    simp [h]
  | cons y ys ih =>
    simp only [isSub, Bool.or_eq_true] at h
    rcases h with h | h
    · exact length_le_of_leadsWith h
    · exact (ih h).trans (by simp)

theorem mem_of_mem_pySplitAux {s cur w : Str} {c : Char}
    (hw : w ∈ pySplitAux s cur) (hc : c ∈ w) : c ∈ s ∨ c ∈ cur := by
  induction s generalizing cur with
  | nil =>
    simp only [pySplitAux] at hw
    split at hw
    · cases hw
    · rcases List.mem_singleton.mp hw with rfl
      exact Or.inr (List.mem_reverse.mp hc)
  | cons x xs ih =>
    simp only [pySplitAux] at hw
    split at hw
    · split at hw
      · rcases ih hw with h | h
        · exact Or.inl (List.mem_cons_of_mem _ h)
        · cases h
      · rcases List.mem_cons.mp hw with rfl | hw'
        · exact Or.inr (List.mem_reverse.mp hc)
        · rcases ih hw' with h | h
          · exact Or.inl (List.mem_cons_of_mem _ h)
          · cases h
    · rcases ih hw with h | h
      · exact Or.inl (List.mem_cons_of_mem _ h)
      · rcases List.mem_cons.mp h with rfl | h'
        · exact Or.inl (List.mem_cons_self _ _)
        · exact Or.inr h'

theorem mem_of_mem_pySplit {s w : Str} {c : Char} (hw : w ∈ pySplit s) (hc : c ∈ w) :
    c ∈ s := by
  rcases mem_of_mem_pySplitAux hw hc with h | h
  · exact h
  · cases h

theorem pySplitAux_of_allSpace {s : Str} (h : ∀ c ∈ s, isPySpace c = true) :
    pySplitAux s [] = [] := by
  induction s with
  | nil => simp [pySplitAux]
  | cons x xs ih =>
    have hx : isPySpace x = true := h x (List.mem_cons_self _ _)
    simp only [pySplitAux, hx, if_true, if_pos rfl]
    exact ih fun c hc => h c (List.mem_cons_of_mem _ hc)

theorem allSpace_of_stripWS_nil {s : Str} (h : stripWS s = []) :
    ∀ c ∈ s, isPySpace c = true := by
  intro c hc
  unfold stripWS at h
  rw [List.reverse_eq_nil_iff, List.dropWhile_eq_nil_iff] at h
  have hback : ∀ x ∈ s.dropWhile isPySpace, isPySpace x = true := by
    intro x hx
    exact h x (List.mem_reverse.mpr hx)
  have hsplit := List.takeWhile_append_dropWhile isPySpace s
  rw [← hsplit] at hc
  rcases List.mem_append.mp hc with h1 | h2
  · exact List.mem_takeWhile_imp h1
  · exact hback c h2

theorem stripWS_ne_nil_of_pySplit_ne_nil {s : Str} (h : pySplit s ≠ []) :
    stripWS s ≠ [] := by
  intro hnil
  exact h (pySplitAux_of_allSpace (allSpace_of_stripWS_nil hnil))

theorem mem_stripWS_of_mem {s : Str} {c : Char} (hns : isPySpace c = false) (hc : c ∈ s) :
    c ∈ stripWS s := by
  unfold stripWS
  rw [List.mem_reverse]
  have step : ∀ (t : Str), c ∈ t → c ∈ t.dropWhile isPySpace := by
    intro t ht
    have hsplit := List.takeWhile_append_dropWhile isPySpace t
    rw [← hsplit] at ht
    rcases List.mem_append.mp ht with h1 | h2
    · exact absurd (List.mem_takeWhile_imp h1) (by simp [hns])
    · exact h2
  exact step _ (List.mem_reverse.mpr (step _ hc))

theorem commonCount_le {q v : Str} : commonCount q v ≤ wordSetSize q :=
  List.length_filter_le _ _

theorem natDiv_le_natDiv_cross {a b c d : ℕ} (hc : 0 < c) (hd : 0 < d)
    (h : a * d ≤ b * c) : a / c ≤ b / d := by
  rw [Nat.le_div_iff_mul_le hd]
  have h1 : a / c * d * c ≤ a * d := by
    calc a / c * d * c = a / c * c * d := by ring
      _ ≤ a * d := Nat.mul_le_mul_right d (Nat.div_mul_le_self a c)
  calc a / c * d ≤ a * d / c := (Nat.le_div_iff_mul_le hc).mpr h1
    _ ≤ b * c / c := Nat.div_le_div_right h
    _ = b := Nat.mul_div_cancel _ hc

theorem natMulDiv_le_self {fs c s : ℕ} (h : c ≤ s) : fs * c / s ≤ fs := by
  rcases Nat.eq_zero_or_pos s with rfl | hs
  · simp
  · calc fs * c / s ≤ fs * s / s := Nat.div_le_div_right (Nat.mul_le_mul_left _ h)
      _ = fs := Nat.mul_div_cancel _ hs

/-- The fuzzy validation never raises the raw fuzzy score. -/
theorem fuzzyValidate_le_fs (fs ql vl s c : ℕ) : fuzzyValidate fs ql vl s c ≤ fs := by
  unfold fuzzyValidate
  split_ifs with h95 hlr hs3 hz hz hs3 hz h85 h4 h6 h2 h7
  · exact le_refl fs
  · exact Nat.zero_le fs
  · exact le_refl fs
  · exact Nat.zero_le fs
  · exact le_refl fs
  · -- fs * c / s ≤ fs, where s = 0 or 10c < 7s
    rcases hz with h0 | hlt
    · subst h0; simp
    · exact natMulDiv_le_self (by omega)
  · exact le_refl fs
  · -- fs * c * 15 / (s * 10) ≤ fs, where 5c < 2s
    rcases Nat.eq_zero_or_pos (s * 10) with h0 | hpos
    · simp [h0]
    · calc fs * c * 15 / (s * 10) = fs * (c * 15) / (s * 10) := by ring_nf
        _ ≤ fs := natMulDiv_le_self (by omega)
  · -- fs * 85 / 100 ≤ fs
    calc fs * 85 / 100 ≤ fs * 100 / 100 :=
      Nat.div_le_div_right (Nat.mul_le_mul_left _ (by norm_num))
      _ = fs := Nat.mul_div_cancel _ (by norm_num)
  · exact le_refl fs
  · -- fs * c * 12 / (s * 10) ≤ fs, where 2c < s
    calc fs * c * 12 / (s * 10) = fs * (c * 12) / (s * 10) := by ring_nf
      _ ≤ fs := natMulDiv_le_self (by omega)
  · calc fs * 65 / 100 ≤ fs * 100 / 100 :=
      Nat.div_le_div_right (Nat.mul_le_mul_left _ (by norm_num))
      _ = fs := Nat.mul_div_cancel _ (by norm_num)
  · exact le_refl fs

/-- Monotonicity of the fuzzy validation in the common-word count
(equivalently, in the overlap ratio `c / s` at fixed set size `s`). -/
theorem fuzzyValidate_mono (fs ql vl s : ℕ) {c₁ c₂ : ℕ} (hc : c₁ ≤ c₂) :
    fuzzyValidate fs ql vl s c₁ ≤ fuzzyValidate fs ql vl s c₂ := by
  unfold fuzzyValidate
  by_cases h95 : 95 ≤ fs
  · simp only [if_pos h95]
    by_cases hlr : vl ≠ 0 ∧ 3 * vl ≤ 5 * ql
    · simp only [if_pos hlr]
      exact le_refl fs
    · simp only [if_neg hlr]
      by_cases hs3 : s ≤ 3
      · simp only [if_pos hs3]
        split_ifs <;> omega
      · simp only [if_neg hs3]
        split_ifs <;> omega
  · simp only [if_neg h95]
    by_cases hs3 : s ≤ 3
    · simp only [if_pos hs3]
      by_cases hA : s = 0 ∨ 10 * c₁ < 7 * s
      · simp only [if_pos hA]
        by_cases hB : s = 0 ∨ 10 * c₂ < 7 * s
        · simp only [if_pos hB]
          exact Nat.div_le_div_right (Nat.mul_le_mul_left _ hc)
        · simp only [if_neg hB]
          rcases hA with h0 | hlt
          · subst h0; simp
          · exact natMulDiv_le_self (by omega)
      · have hB : ¬ (s = 0 ∨ 10 * c₂ < 7 * s) := by omega
        simp only [if_neg hA, if_neg hB]
        exact le_refl fs
    · simp only [if_neg hs3]
      by_cases h85 : 85 ≤ fs
      · simp only [if_pos h85]
        by_cases hA : 5 * c₁ < 2 * s
        · simp only [if_pos hA]
          by_cases hB : 5 * c₂ < 2 * s
          · simp only [if_pos hB]
            exact Nat.div_le_div_right (Nat.mul_le_mul_right _ (Nat.mul_le_mul_left _ hc))
          · simp only [if_neg hB]
            by_cases hB2 : 5 * c₂ < 3 * s
            · simp only [if_pos hB2]
              apply natDiv_le_natDiv_cross (by omega) (by norm_num)
              nlinarith [Nat.mul_le_mul_left fs (Nat.le_of_lt hA)]
            · simp only [if_neg hB2]
              calc fs * c₁ * 15 / (s * 10) = fs * (c₁ * 15) / (s * 10) := by ring_nf
                _ ≤ fs := natMulDiv_le_self (by omega)
        · simp only [if_neg hA]
          by_cases hA2 : 5 * c₁ < 3 * s
          · simp only [if_pos hA2]
            have hB : ¬ 5 * c₂ < 2 * s := by omega
            simp only [if_neg hB]
            by_cases hB2 : 5 * c₂ < 3 * s
            · simp only [if_pos hB2]
              exact le_refl _
            · simp only [if_neg hB2]
              calc fs * 85 / 100 ≤ fs * 100 / 100 :=
                Nat.div_le_div_right (Nat.mul_le_mul_left _ (by norm_num))
                _ = fs := Nat.mul_div_cancel _ (by norm_num)
          · have hB : ¬ 5 * c₂ < 2 * s := by omega
            have hB2 : ¬ 5 * c₂ < 3 * s := by omega
            simp only [if_neg hA2, if_neg hB, if_neg hB2]
            exact le_refl fs
      · simp only [if_neg h85]
        by_cases hA : 2 * c₁ < s
        · simp only [if_pos hA]
          by_cases hB : 2 * c₂ < s
          · simp only [if_pos hB]
            exact Nat.div_le_div_right (Nat.mul_le_mul_right _ (Nat.mul_le_mul_left _ hc))
          · simp only [if_neg hB]
            by_cases hB2 : 10 * c₂ < 7 * s
            · simp only [if_pos hB2]
              apply natDiv_le_natDiv_cross (by omega) (by norm_num)
              nlinarith [Nat.mul_le_mul_left fs (Nat.le_of_lt hA)]
            · simp only [if_neg hB2]
              calc fs * c₁ * 12 / (s * 10) = fs * (c₁ * 12) / (s * 10) := by ring_nf
                _ ≤ fs := natMulDiv_le_self (by omega)
        · simp only [if_neg hA]
          by_cases hA2 : 10 * c₁ < 7 * s
          · simp only [if_pos hA2]
            have hB : ¬ 2 * c₂ < s := by omega
            simp only [if_neg hB]
            by_cases hB2 : 10 * c₂ < 7 * s
            · simp only [if_pos hB2]
              exact le_refl _
            · simp only [if_neg hB2]
              calc fs * 65 / 100 ≤ fs * 100 / 100 :=
                Nat.div_le_div_right (Nat.mul_le_mul_left _ (by norm_num))
                _ = fs := Nat.mul_div_cancel _ (by norm_num)
          · have hB : ¬ 2 * c₂ < s := by omega
            have hB2 : ¬ 10 * c₂ < 7 * s := by omega
            simp only [if_neg hA2, if_neg hB, if_neg hB2]
            exact le_refl fs

theorem containmentScore_le (nq nv : Str) : containmentScore nq nv ≤ 95 := by
  unfold containmentScore
  dsimp only
  split_ifs
  · exact le_refl _
  · omega
  · omega
  · calc 70 * commonCount nq nv / wordSetSize nq ≤ 70 :=
      natMulDiv_le_self commonCount_le
      _ ≤ 95 := by norm_num

theorem fuzzyPathScore_le {fz : FuzzOracle} (hfz : fz.Bounded) (nq nv : Str) :
    fuzzyPathScore fz nq nv ≤ 100 := by
  unfold fuzzyPathScore
  exact (fuzzyValidate_le_fs _ _ _ _ _).trans
    (max_le (hfz nq nv).1 (hfz nq nv).2)

theorem verseFieldScore_le {fz : FuzzOracle} (hfz : fz.Bounded) (nq : Str) (b : ℕ)
    (v : VerseRecord) : verseFieldScore fz nq b v ≤ max b 100 := by
  unfold verseFieldScore
  dsimp only
  split_ifs
  · exact Nat.zero_le _
  · exact le_max_left _ _
  · have h1 : containmentScore nq (normalizeText v.verse) ≤ 100 :=
      (containmentScore_le _ _).trans (by norm_num)
    exact h1.trans (le_max_right b 100)
  · exact le_trans (fuzzyPathScore_le hfz _ _) (le_max_right b 100)

theorem chapterFieldScore_le {fz : FuzzOracle} (hfz : fz.Bounded) (nq : Str) (qlen : ℕ)
    (v : VerseRecord) : chapterFieldScore fz nq qlen v ≤ 100 := by
  unfold chapterFieldScore
  dsimp only
  split_ifs
  · exact Nat.zero_le _
  · exact (hfz nq (normalizeText v.chapter)).2
  · exact Nat.zero_le _

theorem candScore_le {fz : FuzzOracle} (hfz : fz.Bounded) (nq : Str) (strictq : Bool)
    (qlen b : ℕ) (v : VerseRecord) (hb : b ≤ 135) :
    candScore fz nq strictq qlen b v ≤ 135 := by
  unfold candScore
  dsimp only
  split_ifs
  · exact Nat.zero_le _
  · exact max_le ((verseFieldScore_le hfz nq b v).trans (max_le hb (by norm_num)))
      ((chapterFieldScore_le hfz nq qlen v).trans (by norm_num))

theorem bookBoost100_le (bk : BookKey) (nq : Str) : bookBoost100 bk nq ≤ 135 := by
  cases bk <;> simp only [bookBoost100] <;> split_ifs <;> norm_num

theorem scanVerse_threshold (fz : FuzzOracle) (nq : Str) (strictq : Bool) (qlen : ℕ)
    (bk : BookKey) (b : ℕ) (st : SearchState) (v : VerseRecord) :
    (scanVerse fz nq strictq qlen bk b st v).threshold = st.threshold := by
  simp only [scanVerse]
  split_ifs <;> rfl

theorem scanVerse_bestScore_le (fz : FuzzOracle) (nq : Str) (strictq : Bool) (qlen : ℕ)
    (bk : BookKey) (b : ℕ) (st : SearchState) (v : VerseRecord) :
    st.bestScore ≤ (scanVerse fz nq strictq qlen bk b st v).bestScore := by
  simp only [scanVerse]
  split_ifs with h
  · exact le_of_lt h.1
  · exact le_refl _

theorem foldScan_threshold (fz : FuzzOracle) (nq : Str) (strictq : Bool) (qlen : ℕ)
    (bk : BookKey) (b : ℕ) (vs : List VerseRecord) (st : SearchState) :
    (vs.foldl (scanVerse fz nq strictq qlen bk b) st).threshold = st.threshold := by
  induction vs generalizing st with
  | nil => rfl
  | cons v vs ih => rw [List.foldl_cons, ih, scanVerse_threshold]

theorem foldScan_bestScore_le (fz : FuzzOracle) (nq : Str) (strictq : Bool) (qlen : ℕ)
    (bk : BookKey) (b : ℕ) (vs : List VerseRecord) (st : SearchState) :
    st.bestScore ≤ (vs.foldl (scanVerse fz nq strictq qlen bk b) st).bestScore := by
  induction vs generalizing st with
  | nil => exact le_refl _
  | cons v vs ih =>
    exact (scanVerse_bestScore_le fz nq strictq qlen bk b st v).trans (ih _)

theorem foldScan_reaches (fz : FuzzOracle) (nq : Str) (strictq : Bool) (qlen : ℕ)
    (bk : BookKey) (b : ℕ) {vs : List VerseRecord} {v : VerseRecord} {st : SearchState}
    (hv : v ∈ vs) (hth : st.threshold ≤ candScore fz nq strictq qlen b v) :
    candScore fz nq strictq qlen b v ≤
      (vs.foldl (scanVerse fz nq strictq qlen bk b) st).bestScore := by
  induction vs generalizing st with
  | nil => cases hv
  | cons w ws ih =>
    rw [List.foldl_cons]
    rcases List.mem_cons.mp hv with rfl | hv'
    · have h1 : candScore fz nq strictq qlen b v ≤
          (scanVerse fz nq strictq qlen bk b st v).bestScore := by
        simp only [scanVerse]
        split_ifs with h
        · exact le_refl _
        · rcases not_and_or.mp h with h' | h'
          · exact le_of_not_lt h'
          · exact absurd hth h'
      exact h1.trans (foldScan_bestScore_le fz nq strictq qlen bk b ws _)
    · exact ih hv' (by rw [scanVerse_threshold]; exact hth)

theorem scanVerse_ok (fz : FuzzOracle) (nq : Str) (strictq : Bool) (qlen : ℕ)
    (bk : BookKey) (b : ℕ) (st : SearchState) (v : VerseRecord) (h : StateOK st) :
    StateOK (scanVerse fz nq strictq qlen bk b st v) := by
  simp only [scanVerse]
  split_ifs with hcond
  · constructor
    · intro hnone; cases hnone
    · intro m hm
      cases hm
      rfl
  · exact h

theorem foldScan_ok (fz : FuzzOracle) (nq : Str) (strictq : Bool) (qlen : ℕ)
    (bk : BookKey) (b : ℕ) (vs : List VerseRecord) (st : SearchState) (h : StateOK st) :
    StateOK (vs.foldl (scanVerse fz nq strictq qlen bk b) st) := by
  induction vs generalizing st with
  | nil => exact h
  | cons v vs ih => exact ih _ (scanVerse_ok fz nq strictq qlen bk b st v h)

theorem foldScan_bound (fz : FuzzOracle) (nq : Str) (strictq : Bool) (qlen : ℕ)
    (bk : BookKey) (b : ℕ) {B : ℕ} {vs : List VerseRecord} {st : SearchState}
    (hB : ∀ v ∈ vs, candScore fz nq strictq qlen b v ≤ B) (h : st.bestScore ≤ B) :
    (vs.foldl (scanVerse fz nq strictq qlen bk b) st).bestScore ≤ B := by
  induction vs generalizing st with
  | nil => exact h
  | cons v vs ih =>
    rw [List.foldl_cons]
    apply ih (fun w hw => hB w (List.mem_cons_of_mem _ hw))
    simp only [scanVerse]
    split_ifs with hcond
    · exact hB v (List.mem_cons_self _ _)
    · exact h

theorem foldScan_id (fz : FuzzOracle) (nq : Str) (strictq : Bool) (qlen : ℕ)
    (bk : BookKey) (b : ℕ) {vs : List VerseRecord} {st : SearchState}
    (h : ∀ v ∈ vs, candScore fz nq strictq qlen b v < st.threshold) :
    vs.foldl (scanVerse fz nq strictq qlen bk b) st = st := by
  induction vs with
  | nil => rfl
  | cons v vs ih =>
    rw [List.foldl_cons]
    have hstep : scanVerse fz nq strictq qlen bk b st v = st := by
      simp only [scanVerse]
      rw [if_neg]
      intro hcond
      exact absurd hcond.2 (not_le_of_lt (h v (List.mem_cons_self _ _)))
    rw [hstep]
    exact ih (fun w hw => h w (List.mem_cons_of_mem _ hw))

theorem bookThreshold_le (bk : BookKey) (nq : Str) (th : ℕ) :
    bookThreshold bk nq th ≤ th := by
  cases bk <;> simp only [bookThreshold] <;> split_ifs <;> simp [min_le_left]

theorem classifierThreshold_le_98 (s : Str) : classifierThreshold s ≤ 98 := by
  unfold classifierThreshold lengthBand
  split_ifs <;> norm_num

theorem scanBook_threshold (fz : FuzzOracle) (nq : Str) (strictq : Bool) (qlen : ℕ)
    (bk : BookKey) (vs : List VerseRecord) (st : SearchState) :
    (scanBook fz nq strictq qlen bk vs st).threshold = bookThreshold bk nq st.threshold := by
  unfold scanBook
  rw [foldScan_threshold]

theorem scanBook_bestScore_le (fz : FuzzOracle) (nq : Str) (strictq : Bool) (qlen : ℕ)
    (bk : BookKey) (vs : List VerseRecord) (st : SearchState) :
    st.bestScore ≤ (scanBook fz nq strictq qlen bk vs st).bestScore := by
  unfold scanBook
  dsimp only
  exact foldScan_bestScore_le fz nq strictq qlen bk (bookBoost100 bk nq) vs
    { st with threshold := bookThreshold bk nq st.threshold }

theorem scanBook_ok (fz : FuzzOracle) (nq : Str) (strictq : Bool) (qlen : ℕ)
    (bk : BookKey) (vs : List VerseRecord) (st : SearchState) (h : StateOK st) :
    StateOK (scanBook fz nq strictq qlen bk vs st) := by
  unfold scanBook
  exact foldScan_ok fz nq strictq qlen bk (bookBoost100 bk nq) vs _ h

theorem scanBook_reaches (fz : FuzzOracle) (nq : Str) (strictq : Bool) (qlen : ℕ)
    (bk : BookKey) {vs : List VerseRecord} {v : VerseRecord} {st : SearchState}
    (hv : v ∈ vs)
    (hth : bookThreshold bk nq st.threshold ≤
      candScore fz nq strictq qlen (bookBoost100 bk nq) v) :
    candScore fz nq strictq qlen (bookBoost100 bk nq) v ≤
      (scanBook fz nq strictq qlen bk vs st).bestScore := by
  unfold scanBook
  exact foldScan_reaches fz nq strictq qlen bk (bookBoost100 bk nq) hv hth

theorem scanBook_bound (fz : FuzzOracle) (nq : Str) (strictq : Bool) (qlen : ℕ)
    (bk : BookKey) {B : ℕ} {vs : List VerseRecord} {st : SearchState}
    (hB : ∀ v ∈ vs, candScore fz nq strictq qlen (bookBoost100 bk nq) v ≤ B)
    (h : st.bestScore ≤ B) :
    (scanBook fz nq strictq qlen bk vs st).bestScore ≤ B := by
  unfold scanBook
  exact foldScan_bound fz nq strictq qlen bk (bookBoost100 bk nq) hB h

theorem scanBook_id (fz : FuzzOracle) (nq : Str) (strictq : Bool) (qlen : ℕ)
    (bk : BookKey) {vs : List VerseRecord} {st : SearchState}
    (h : ∀ v ∈ vs, candScore fz nq strictq qlen (bookBoost100 bk nq) v <
      bookThreshold bk nq st.threshold) :
    scanBook fz nq strictq qlen bk vs st =
      { st with threshold := bookThreshold bk nq st.threshold } := by
  unfold scanBook
  exact foldScan_id fz nq strictq qlen bk (bookBoost100 bk nq) h

/-- An exact normalized match on a non-placeholder record scores exactly
the book boost (the code's `verse_score = 100 * kamba_boost`), and the
candidate score is at least that whenever the boost is at least 100. -/
theorem candScore_exact (fz : FuzzOracle) (strictq : Bool) (qlen b : ℕ)
    {nq : Str} {v : VerseRecord} (hq : nq = normalizeText v.verse)
    (hph : isPlaceholderVerse v.verse = false) (hb : 100 ≤ b) :
    b ≤ candScore fz nq strictq qlen b v := by
  have hvs : verseFieldScore fz nq b v = b := by
    unfold verseFieldScore
    rw [hph]
    simp only [Bool.false_eq_true, if_false]
    rw [if_pos hq]
  unfold candScore
  dsimp only
  rw [hvs]
  have hmax : b ≤ max b (chapterFieldScore fz nq qlen v) := le_max_left _ _
  split_ifs with h
  · omega
  · exact hmax

/-- If some non-placeholder record's normalized text equals the
normalized query, and that record's book applies a boost of at least
1.0, the search returns a winner scoring at least 100. -/
theorem fuzzySearch_exact (fz : FuzzOracle) (thk kmb : List VerseRecord) (q : Str)
    (v : VerseRecord) (bk : BookKey)
    (hmem : (bk = BookKey.thirukkural ∧ v ∈ thk) ∨ (bk = BookKey.kamba ∧ v ∈ kmb))
    (hq : normalizeText q = normalizeText v.verse)
    (hph : isPlaceholderVerse v.verse = false)
    (hnum : isNumberSearch (normalizeText q) = false)
    (hboost : 100 ≤ bookBoost100 bk (normalizeText q)) :
    ∃ m, fuzzySearchAllBooks fz thk kmb q = some m ∧ 100 ≤ m.match_score := by
  unfold fuzzySearchAllBooks
  dsimp only
  rw [hnum]
  simp only [Bool.false_eq_true, if_false]
  set nq := normalizeText q with hnq
  set strictq := strictMode nq
  set qlen := nq.length
  set st0 : SearchState := ⟨none, 0, classifierThreshold nq⟩ with hst0
  set st1 := scanBook fz nq strictq qlen .thirukkural thk st0 with hst1
  set st2 := scanBook fz nq strictq qlen .kamba kmb st1 with hst2
  have hok : StateOK st2 := by
    apply scanBook_ok
    apply scanBook_ok
    exact ⟨fun _ => rfl, fun m hm => by cases hm⟩
  have hth0 : st0.threshold ≤ 98 := classifierThreshold_le_98 nq
  have hscore : 100 ≤ st2.bestScore := by
    rcases hmem with ⟨rfl, hv⟩ | ⟨rfl, hv⟩
    · have hcand := candScore_exact fz strictq qlen (bookBoost100 .thirukkural nq) hq hph hboost
      have hreach : candScore fz nq strictq qlen (bookBoost100 .thirukkural nq) v ≤
          st1.bestScore := by
        apply scanBook_reaches fz nq strictq qlen .thirukkural hv
        calc bookThreshold .thirukkural nq st0.threshold ≤ st0.threshold :=
          bookThreshold_le _ _ _
          _ ≤ 98 := hth0
          _ ≤ candScore fz nq strictq qlen (bookBoost100 .thirukkural nq) v := by omega
      have h2 : st1.bestScore ≤ st2.bestScore := by
        rw [hst2]
        exact scanBook_bestScore_le fz nq strictq qlen .kamba kmb st1
      omega
    · have hcand := candScore_exact fz strictq qlen (bookBoost100 .kamba nq) hq hph hboost
      apply le_trans _ (scanBook_reaches fz nq strictq qlen .kamba hv _)
      · omega
      · have hth1 : st1.threshold ≤ 98 := by
          rw [hst1, scanBook_threshold]
          exact (bookThreshold_le _ _ _).trans hth0
        calc bookThreshold .kamba nq st1.threshold ≤ st1.threshold := bookThreshold_le _ _ _
          _ ≤ 98 := hth1
          _ ≤ candScore fz nq strictq qlen (bookBoost100 .kamba nq) v := by omega
  rcases hbest : st2.best with _ | m
  · exfalso
    have := hok.1 hbest
    omega
  · have hms : m.match_score = st2.bestScore := hok.2 m hbest
    refine ⟨m, ?_, by omega⟩
    dsimp only
    rw [if_neg]
    intro hcon
    omega

theorem scan2_ok (fz : FuzzOracle) (nq : Str) (strictq : Bool) (qlen th0 : ℕ)
    (thk kmb : List VerseRecord) :
    StateOK (scanBook fz nq strictq qlen .kamba kmb
      (scanBook fz nq strictq qlen .thirukkural thk ⟨none, 0, th0⟩)) := by
  apply scanBook_ok
  apply scanBook_ok
  exact ⟨fun _ => rfl, fun m hm => by cases hm⟩

theorem scan2_bound {fz : FuzzOracle} (hfz : fz.Bounded) (nq : Str) (strictq : Bool)
    (qlen th0 : ℕ) (thk kmb : List VerseRecord) :
    (scanBook fz nq strictq qlen .kamba kmb
      (scanBook fz nq strictq qlen .thirukkural thk ⟨none, 0, th0⟩)).bestScore ≤ 135 := by
  apply scanBook_bound
  · intro v _
    exact candScore_le hfz nq strictq qlen _ v (bookBoost100_le _ _)
  · apply scanBook_bound
    · intro v _
      exact candScore_le hfz nq strictq qlen _ v (bookBoost100_le _ _)
    · exact Nat.zero_le _

/-- Any winner the search returns has `match_score` at most 135
(score 100 boosted by at most 1.35; number-search hits score 100). -/
theorem fuzzySearch_score_le {fz : FuzzOracle} (hfz : fz.Bounded)
    (thk kmb : List VerseRecord) (q : Str) {m : MatchResult}
    (hm : fuzzySearchAllBooks fz thk kmb q = some m) : m.match_score ≤ 135 := by
  unfold fuzzySearchAllBooks at hm
  dsimp only at hm
  split at hm
  · split at hm
    next m' hfind =>
      cases hm
      unfold numberFind at hfind
      rcases Option.map_eq_some'.mp hfind with ⟨v, _, hmk⟩
      rw [← hmk]
      norm_num
    next hfind =>
      unfold numberFind at hm
      rcases Option.map_eq_some'.mp hm with ⟨v, _, hmk⟩
      rw [← hmk]
      norm_num
  · split at hm
    next m' hbest =>
      have hok := scan2_ok fz (normalizeText q) (strictMode (normalizeText q))
        (normalizeText q).length (classifierThreshold (normalizeText q)) thk kmb
      have hbound := scan2_bound hfz (normalizeText q) (strictMode (normalizeText q))
        (normalizeText q).length (classifierThreshold (normalizeText q)) thk kmb
      have hms := hok.2 m' hbest
      split at hm
      · cases hm
      · cases hm
        omega
    next hbest =>
      cases hm

/-- If in the scoring branch no candidate of either book clears that
book's threshold, the search returns nothing. -/
theorem fuzzySearch_none (fz : FuzzOracle) (thk kmb : List VerseRecord) (q : Str)
    (hnum : isNumberSearch (normalizeText q) = false)
    (hthk : ∀ v ∈ thk, candScore fz (normalizeText q) (strictMode (normalizeText q))
      (normalizeText q).length (bookBoost100 .thirukkural (normalizeText q)) v <
      bookThreshold .thirukkural (normalizeText q) (classifierThreshold (normalizeText q)))
    (hkmb : ∀ v ∈ kmb, candScore fz (normalizeText q) (strictMode (normalizeText q))
      (normalizeText q).length (bookBoost100 .kamba (normalizeText q)) v <
      bookThreshold .kamba (normalizeText q)
        (bookThreshold .thirukkural (normalizeText q) (classifierThreshold (normalizeText q)))) :
    fuzzySearchAllBooks fz thk kmb q = none := by
  unfold fuzzySearchAllBooks
  dsimp only
  rw [hnum]
  simp only [Bool.false_eq_true, if_false]
  have h1 : scanBook fz (normalizeText q) (strictMode (normalizeText q))
      (normalizeText q).length .thirukkural thk
      ⟨none, 0, classifierThreshold (normalizeText q)⟩ =
      ⟨none, 0, bookThreshold .thirukkural (normalizeText q)
        (classifierThreshold (normalizeText q))⟩ := by
    exact scanBook_id fz _ _ _ _ hthk
  rw [h1]
  have h2 := @scanBook_id fz (normalizeText q) (strictMode (normalizeText q))
    (normalizeText q).length BookKey.kamba kmb
    ⟨none, 0, bookThreshold .thirukkural (normalizeText q)
      (classifierThreshold (normalizeText q))⟩ hkmb
  rw [h2]

theorem preprocess_ne_nil_strip {q : Str} (h : preprocessForAnalysis q ≠ []) :
    stripWS q ≠ [] := by
  apply stripWS_ne_nil_of_pySplit_ne_nil
  intro hsplit
  apply h
  unfold preprocessForAnalysis cleanText
  rw [hsplit]
  rfl

/-- When preprocessing succeeds and the search finds a match, `analyze`
reports it with `confidence = match_score / 100`. -/
theorem analyze_found {fz : FuzzOracle} {thk kmb : List VerseRecord} {q : Str}
    {m : MatchResult} (hvalid : preprocessForAnalysis q ≠ [])
    (hm : fuzzySearchAllBooks fz thk kmb (preprocessForAnalysis q) = some m) :
    analyze fz thk kmb q = ⟨true, bookKeyStr m.book_key, some m.record.verse_number,
      some ((m.match_score : ℚ) / 100), none⟩ := by
  unfold analyze
  rw [if_neg (preprocess_ne_nil_strip hvalid)]
  dsimp only
  rw [if_neg hvalid, hm]

/-- When preprocessing succeeds and the search finds nothing, `analyze`
falls back to the generic analysis: found = false. -/
theorem analyze_notfound {fz : FuzzOracle} {thk kmb : List VerseRecord} {q : Str}
    (hvalid : preprocessForAnalysis q ≠ [])
    (hm : fuzzySearchAllBooks fz thk kmb (preprocessForAnalysis q) = none) :
    analyze fz thk kmb q = ⟨false, tl "random_text", some [], some 0,
      some (analyzeSentiment (preprocessForAnalysis q))⟩ := by
  unfold analyze
  rw [if_neg (preprocess_ne_nil_strip hvalid)]
  dsimp only
  rw [if_neg hvalid, hm]

theorem zeroFuzz_bounded : zeroFuzz.Bounded := by
  intro a b
  exact ⟨by norm_num [zeroFuzz], by norm_num [zeroFuzz]⟩

/-- Claim C1, counterexample: `q11` equals (after normalization) the
stored non-placeholder verse text of `recQ11Thk`, yet `analyze` returns
confidence 0.75 < 0.95 — the query's 11 words make it kamba-structured,
so the thirukkural book applies the 0.75 penalty boost to the exact
match (`verse_score = 100 * 0.75`). -/
theorem C1_counterexample :
    normalizeText q11 = normalizeText recQ11Thk.verse ∧
    isPlaceholderVerse recQ11Thk.verse = false ∧
    (analyze zeroFuzz [recQ11Thk] [] q11).found = true ∧
    (analyze zeroFuzz [recQ11Thk] [] q11).confidence = some ((3 : ℚ)/4) ∧
    ¬ ((95 : ℚ)/100 ≤ (3 : ℚ)/4) := by
  have hpre : preprocessForAnalysis q11 = q11 := by decide
  have hm : fuzzySearchAllBooks zeroFuzz [recQ11Thk] [] (preprocessForAnalysis q11) =
      some ⟨recQ11Thk, 75, .thirukkural, some 75⟩ := by
    rw [hpre]
    decide
  have ha := analyze_found (by decide) hm
  rw [ha]
  have hc : ((75 : ℕ) : ℚ)/100 = 3/4 := by norm_num
  exact ⟨by decide, by decide, rfl, by rw [hc], by norm_num⟩

/-- Claim C1, amended: for every query whose pipeline-normalized text
equals the normalized text of some stored non-placeholder verse record,
`analyze` returns found = true with confidence at least 0.95, provided
the normalized query is non-empty and not a pure digit string, and the
structural boost the query's shape verdict assigns to that verse's book
is at least 1.0 (a shape-mismatched book applies the 0.75 penalty, which
the counterexample shows can drop the confidence to 0.75). -/
theorem C1_amended (fz : FuzzOracle) (thk kmb : List VerseRecord) (q : Str)
    (v : VerseRecord) (bk : BookKey)
    (hmem : (bk = BookKey.thirukkural ∧ v ∈ thk) ∨ (bk = BookKey.kamba ∧ v ∈ kmb))
    (hq : normalizeText (preprocessForAnalysis q) = normalizeText v.verse)
    (hph : isPlaceholderVerse v.verse = false)
    (hne : normalizeText (preprocessForAnalysis q) ≠ [])
    (hnum : isNumberSearch (normalizeText (preprocessForAnalysis q)) = false)
    (hboost : 100 ≤ bookBoost100 bk (normalizeText (preprocessForAnalysis q))) :
    (analyze fz thk kmb q).found = true ∧
    ∃ c : ℚ, (analyze fz thk kmb q).confidence = some c ∧ (95 : ℚ)/100 ≤ c := by
  have hvalid : preprocessForAnalysis q ≠ [] := by
    intro h0
    apply hne
    rw [h0]
    rfl
  obtain ⟨m, hm, hsc⟩ :=
    fuzzySearch_exact fz thk kmb (preprocessForAnalysis q) v bk hmem hq hph hnum hboost
  have ha := analyze_found hvalid hm
  rw [ha]
  refine ⟨rfl, (m.match_score : ℚ)/100, rfl, ?_⟩
  have h95 : (95 : ℚ) ≤ (m.match_score : ℚ) := by
    exact_mod_cast Nat.le_of_lt (by omega)
  exact (div_le_div_iff_of_pos_right (by norm_num : (0:ℚ) < 100)).mpr h95

/-- Witness for `C1_amended`: a two-word verse stored in the thirukkural
book, queried verbatim (neutral boost 1.0, confidence 1.0). -/
theorem C1_amended_witness :
    (analyze zeroFuzz [recTwoWords] [] (tl "கங கச")).found = true ∧
    ∃ c : ℚ, (analyze zeroFuzz [recTwoWords] [] (tl "கங கச")).confidence = some c ∧
      (95 : ℚ)/100 ≤ c :=
  C1_amended zeroFuzz [recTwoWords] [] (tl "கங கச") recTwoWords .thirukkural
    (Or.inl ⟨rfl, by decide⟩) (by decide) (by decide) (by decide) (by decide) (by decide)

/-- Claim C2, counterexample: with query `q11` (kamba-structured), the
thirukkural containment candidate scores 85 and the kamba containment
candidate scores 80 — neither multiplied by its boost — and the search
selects the thirukkural candidate although the claimed boosted-score
ordering (85 x 0.75 = 63.75 versus 80 x 1.30 = 104) would select the
kamba one.  The boost multiplies only exact matches. -/
theorem C2_counterexample :
    fuzzySearchAllBooks zeroFuzz [recV1] [recV2] q11 =
      some ⟨recV1, 85, .thirukkural, some 75⟩ ∧
    candScore zeroFuzz q11 false 32 (bookBoost100 .kamba q11) recV2 = 80 ∧
    ((85 : ℚ) * (75/100) < (80 : ℚ) * (130/100)) :=
  ⟨by decide, by decide, by norm_num⟩

/-- Claim C2, amended: the arbitrator compares candidates by their
computed scores, in which the structural boost multiplies only the
exact-match branch (`verse_score = 100 * kamba_boost`); containment,
fuzzy and chapter candidates compete with their raw, unboosted scores
(the candidate score is independent of the boost whenever the query is
not an exact normalized match of the verse). -/
theorem C2_amended (fz : FuzzOracle) (nq : Str) (strictq : Bool) (qlen : ℕ)
    (v : VerseRecord) :
    (∀ b : ℕ, isPlaceholderVerse v.verse = false → nq = normalizeText v.verse →
      verseFieldScore fz nq b v = b) ∧
    (∀ b b' : ℕ, nq ≠ normalizeText v.verse →
      candScore fz nq strictq qlen b v = candScore fz nq strictq qlen b' v) := by
  constructor
  · intro b hph hq
    unfold verseFieldScore
    rw [hph]
    simp only [Bool.false_eq_true, if_false]
    rw [if_pos hq]
  · intro b b' hne
    have hv : ∀ b0 : ℕ, verseFieldScore fz nq b0 v = verseFieldScore fz nq 0 v := by
      intro b0
      unfold verseFieldScore
      dsimp only
      split_ifs
      · rfl
      · rfl
      · rfl
    unfold candScore
    dsimp only
    rw [hv b, hv b']

/-- Witness for `C2_amended` at concrete inputs. -/
theorem C2_amended_witness :
    verseFieldScore zeroFuzz q11 75 recQ11Thk = 75 ∧
    candScore zeroFuzz q11 false 32 75 recV1 = candScore zeroFuzz q11 false 32 135 recV1 :=
  ⟨(C2_amended zeroFuzz q11 false 32 recQ11Thk).1 75 (by decide) (by decide),
   (C2_amended zeroFuzz q11 false 32 recV1).2 75 135 (by decide)⟩

/-- Claim C3 (code bug): a verse-number query "26" with the verse stored
under that number is rejected by `analyze` as `invalid` — the digits
carry no Tamil characters, so `preprocess_for_analysis` empties the
query before the number-search branch can see it (and `normalize_text`
strips digits, so even the direct search finds nothing). -/
theorem C3_bug_eval :
    rec26.verse_number = stripWS (tl "26") ∧
    (analyze zeroFuzz [rec26] [] (tl "26")).found = false ∧
    (analyze zeroFuzz [rec26] [] (tl "26")).source = tl "invalid" ∧
    fuzzySearchAllBooks zeroFuzz [rec26] [] (tl "26") = none :=
  ⟨by decide, by decide, by decide, by decide⟩

/-- Claim C4, counterexample: an exact match in the kamba book with the
1.30 structural boost yields `match_score` 130 and confidence 1.3 > 1.0. -/
theorem C4_counterexample :
    (analyze zeroFuzz [] [recQ11Kmb] q11).found = true ∧
    (analyze zeroFuzz [] [recQ11Kmb] q11).confidence = some ((13 : ℚ)/10) ∧
    ¬ ((13 : ℚ)/10 ≤ 1) := by
  have hpre : preprocessForAnalysis q11 = q11 := by decide
  have hm : fuzzySearchAllBooks zeroFuzz [] [recQ11Kmb] (preprocessForAnalysis q11) =
      some ⟨recQ11Kmb, 130, .kamba, some 130⟩ := by
    rw [hpre]
    decide
  have ha := analyze_found (by decide) hm
  rw [ha]
  have hc : ((130 : ℕ) : ℚ)/100 = 13/10 := by norm_num
  exact ⟨rfl, by rw [hc], by norm_num⟩

/-- Claim C4, amended: whenever `analyze` returns found = true, the
confidence is `match_score / 100` and lies within 0.0 to 1.35 inclusive
(the boosted exact-match score can reach 135, so the normalized value is
not confined to 0.0..1.0). -/
theorem C4_amended (fz : FuzzOracle) (hfz : fz.Bounded) (thk kmb : List VerseRecord)
    (q : Str) (c : ℚ) (hc : (analyze fz thk kmb q).confidence = some c)
    (hf : (analyze fz thk kmb q).found = true) : 0 ≤ c ∧ c ≤ 27/20 := by
  by_cases h1 : stripWS q = []
  · unfold analyze at hf
    rw [if_pos h1] at hf
    cases hf
  · by_cases h2 : preprocessForAnalysis q = []
    · unfold analyze at hf
      rw [if_neg h1] at hf
      dsimp only at hf
      rw [if_pos h2] at hf
      cases hf
    · cases hm : fuzzySearchAllBooks fz thk kmb (preprocessForAnalysis q) with
      | none =>
        rw [analyze_notfound h2 hm] at hf
        cases hf
      | some m =>
        rw [analyze_found h2 hm] at hc
        have hle := fuzzySearch_score_le hfz thk kmb _ hm
        have hceq : c = (m.match_score : ℚ)/100 := by
          injection hc with hc'
          exact hc'.symm
        subst hceq
        constructor
        · exact div_nonneg (Nat.cast_nonneg _) (by norm_num)
        · rw [div_le_iff₀ (by norm_num : (0:ℚ) < 100)]
          calc (m.match_score : ℚ) ≤ 135 := by exact_mod_cast hle
            _ = 27/20 * 100 := by norm_num

/-- Witness for `C4_amended` at a boosted exact kamba match
(confidence 1.3). -/
theorem C4_amended_witness : 0 ≤ (13 : ℚ)/10 ∧ (13 : ℚ)/10 ≤ 27/20 := by
  have hpre : preprocessForAnalysis q11 = q11 := by decide
  have hm : fuzzySearchAllBooks zeroFuzz [] [recQ11Kmb] (preprocessForAnalysis q11) =
      some ⟨recQ11Kmb, 130, .kamba, some 130⟩ := by
    rw [hpre]
    decide
  have ha := analyze_found (by decide) hm
  apply C4_amended zeroFuzz zeroFuzz_bounded [] [recQ11Kmb] q11
  · rw [ha]
    dsimp only
    rw [show ((130 : ℕ) : ℚ)/100 = 13/10 by norm_num]
  · rw [ha]

/-- Claim C5 (confirmed): for every normalized query with no verse shape
(not 2 lines with 6-10 words, no narrative character name, at most 10
words, at most 2 lines) that contains a modern verb ending and has at
least 2 words, strict mode engages; every candidate whose raw score
(best of verse and chapter score) stays below 95 is forced to 0, and if
no candidate of either book reaches a raw score of at least 98, the
search returns nothing and `analyze` returns found = false. -/
theorem C5_strict_veto (fz : FuzzOracle) (thk kmb : List VerseRecord) (q nq : Str)
    (hnq : nq = normalizeText (preprocessForAnalysis q))
    (hshape : ¬ (lineCount nq = 2 ∧ 6 ≤ wordCount nq ∧ wordCount nq ≤ 10))
    (hchar16 : hasKambaChar16 nq = false)
    (hchar6 : hasKambaChar6 nq = false)
    (hwc10 : wordCount nq ≤ 10)
    (hlines : lineCount nq ≤ 2)
    (hverb : hasModernVerb nq = true)
    (hwc2 : 2 ≤ wordCount nq)
    (hthk : ∀ v ∈ thk,
      max (verseFieldScore fz nq (bookBoost100 .thirukkural nq) v)
        (chapterFieldScore fz nq nq.length v) < 98)
    (hkmb : ∀ v ∈ kmb,
      max (verseFieldScore fz nq (bookBoost100 .kamba nq) v)
        (chapterFieldScore fz nq nq.length v) < 98) :
    strictMode nq = true ∧
    fuzzySearchAllBooks fz thk kmb (preprocessForAnalysis q) = none ∧
    (analyze fz thk kmb q).found = false ∧
    (∀ (b : ℕ) (v : VerseRecord),
      max (verseFieldScore fz nq b v) (chapterFieldScore fz nq nq.length v) < 95 →
      candScore fz nq true nq.length b v = 0) := by
  have hThk : isThirukkuralStructure nq = false := by
    rcases Bool.eq_false_or_eq_true (isThirukkuralStructure nq) with h | h
    · exfalso
      apply hshape
      simp only [isThirukkuralStructure, Bool.and_eq_true, decide_eq_true_eq] at h
      exact ⟨h.1.1, h.1.2, h.2⟩
    · exact h
  have hKmbS : isKambaStructure nq = false := by
    rcases Bool.eq_false_or_eq_true (isKambaStructure nq) with h | h
    · exfalso
      simp only [isKambaStructure, hchar16, Bool.false_or, Bool.or_eq_true,
        decide_eq_true_eq] at h
      omega
    · exact h
  have hllk : looksLikeKamba nq = false := by
    rcases Bool.eq_false_or_eq_true (looksLikeKamba nq) with h | h
    · exfalso
      simp only [looksLikeKamba, hchar6, Bool.or_false, Bool.or_eq_true,
        decide_eq_true_eq] at h
      omega
    · exact h
  have hllv : looksLikeVerse nq = false := by
    simp [looksLikeVerse, hThk, hllk]
  have hstrict : strictMode nq = true := by
    simp [strictMode, hllv, isModernSentence, hverb, hwc2]
  have hb_thk : bookBoost100 .thirukkural nq = 100 := by
    simp [bookBoost100, hThk, hKmbS]
  have hb_kmb : bookBoost100 .kamba nq = 100 := by
    simp [bookBoost100, hThk, hKmbS]
  have hth98 : classifierThreshold nq = 98 := by
    simp [classifierThreshold, hstrict]
  have hbth_thk : bookThreshold .thirukkural nq 98 = 98 := by
    simp [bookThreshold, hThk]
  have hbth_kmb : bookThreshold .kamba nq 98 = 98 := by
    simp [bookThreshold, hKmbS]
  have hnum : isNumberSearch nq = false := by
    rcases Bool.eq_false_or_eq_true (isNumberSearch nq) with h | h
    · exfalso
      simp only [hasModernVerb, List.any_eq_true] at hverb
      obtain ⟨w, hw, he⟩ := hverb
      obtain ⟨e, hemem, hsuf⟩ := he
      have hchars : ∀ e' ∈ verbEndings, ∃ ch ∈ e', isPyDigit ch = false ∧
          isPySpace ch = false := by decide
      obtain ⟨ch, hch, hnd, hns⟩ := hchars e hemem
      have hchw : ch ∈ w := mem_of_endsWith hsuf hch
      have hchq : ch ∈ nq := mem_of_mem_pySplit hw hchw
      have hchs : ch ∈ stripWS nq := mem_stripWS_of_mem hns hchq
      simp only [isNumberSearch, Bool.and_eq_true, List.all_eq_true] at h
      have hdig := h.2 ch hchs
      rw [hnd] at hdig
      cases hdig
    · exact h
  have hzero : ∀ (b : ℕ) (v : VerseRecord),
      max (verseFieldScore fz nq b v) (chapterFieldScore fz nq nq.length v) < 95 →
      candScore fz nq true nq.length b v = 0 := by
    intro b v hlt
    unfold candScore
    dsimp only
    rw [if_pos ⟨rfl, hlt⟩]
  have hne : nq ≠ [] := by
    intro h0
    rw [h0] at hwc2
    simp [wordCount, pySplit, pySplitAux] at hwc2
  have hvalid : preprocessForAnalysis q ≠ [] := by
    intro h0
    apply hne
    rw [hnq, h0]
    rfl
  have hcand_thk : ∀ v ∈ thk,
      candScore fz nq (strictMode nq) nq.length (bookBoost100 .thirukkural nq) v <
        bookThreshold .thirukkural nq (classifierThreshold nq) := by
    intro v hv
    rw [hth98, hbth_thk, hstrict]
    unfold candScore
    dsimp only
    split_ifs with h
    · omega
    · exact hthk v hv
  have hcand_kmb : ∀ v ∈ kmb,
      candScore fz nq (strictMode nq) nq.length (bookBoost100 .kamba nq) v <
        bookThreshold .kamba nq
          (bookThreshold .thirukkural nq (classifierThreshold nq)) := by
    intro v hv
    rw [hth98, hbth_thk, hbth_kmb, hstrict]
    unfold candScore
    dsimp only
    split_ifs with h
    · omega
    · exact hkmb v hv
  have hsearch : fuzzySearchAllBooks fz thk kmb (preprocessForAnalysis q) = none := by
    apply fuzzySearch_none fz thk kmb (preprocessForAnalysis q)
    · rw [← hnq]; exact hnum
    · rw [← hnq]; exact hcand_thk
    · rw [← hnq]; exact hcand_kmb
  refine ⟨hstrict, hsearch, ?_, hzero⟩
  rw [analyze_notfound hvalid hsearch]

/-- Witness for `C5_strict_veto`: "நான் செல்கிறேன்" (2 words, modern verb
ending) against a one-verse thirukkural corpus. -/
theorem C5_witness :
    (analyze zeroFuzz [recTwoWords] [] modernSentence).found = false :=
  (C5_strict_veto zeroFuzz [recTwoWords] [] modernSentence
    (normalizeText (preprocessForAnalysis modernSentence)) rfl (by decide) (by decide)
    (by decide) (by decide) (by decide) (by decide) (by decide) (by decide)
    (by decide)).2.2.1

/-- Claim C6 (confirmed): the classifier's decision rule in order — a
verse-shaped query (2 lines with 6-10 words, or a character name or
more than 10 words or more than 2 lines) never engages strict mode, the
modern-sentence lexical cues being ignored; otherwise strict mode is
engaged exactly when a modern lexical cue fires with word count at
least 2, or the word count is at most 3; strict mode carries threshold
98, non-strict the length band. -/
theorem C6_classifier_rule (s : Str) :
    (looksLikeVerse s = true → strictMode s = false) ∧
    (looksLikeVerse s = false →
      (strictMode s = true ↔
        ((isModernSentence s = true ∧ 2 ≤ wordCount s) ∨ wordCount s ≤ 3))) ∧
    (strictMode s = true → classifierThreshold s = 98) ∧
    (strictMode s = false → classifierThreshold s = lengthBand s.length) := by
  refine ⟨?_, ?_, ?_, ?_⟩
  · intro h
    simp [strictMode, h]
  · intro h
    simp [strictMode, h, isShortQuery]
  · intro h
    simp [classifierThreshold, h]
  · intro h
    simp [classifierThreshold, h]

/-- Witness for `C6_classifier_rule`: `q11` is verse-shaped (11 words),
the modern sentence is not. -/
theorem C6_witness :
    strictMode q11 = false ∧
    (strictMode modernSentence = true ↔
      ((isModernSentence modernSentence = true ∧ 2 ≤ wordCount modernSentence) ∨
        wordCount modernSentence ≤ 3)) ∧
    classifierThreshold modernSentence = 98 :=
  ⟨(C6_classifier_rule q11).1 (by decide),
   (C6_classifier_rule modernSentence).2.1 (by decide),
   (C6_classifier_rule modernSentence).2.2.1 (by decide)⟩

/-- Claim C7, counterexample: the verse "ககக" is a strict substring of
the query "கககக கககக"; the shorter string is 3/9 (33 percent) of the
longer, so the claimed longer-relative banding lands in the overlap
branch (score 0 here, no overlapping word), but the code compares the
QUERY length against the VERSE length (9 at least 0.8 x 3) and gives 95. -/
theorem C7_counterexample :
    isSub (tl "ககக") (tl "கககக கககக") = true ∧
    tl "ககக" ≠ tl "கககக கககக" ∧
    containmentScore (tl "கககக கககக") (tl "ககக") = 95 ∧
    containmentScoreClaim (tl "கககக கககக") (tl "ககக") = 0 :=
  ⟨by decide, by decide, by decide, by decide⟩

/-- Claim C7, amended: the containment score is banded by the ratio of
the QUERY length to the VERSE length: query at least 80 percent of the
verse gives 95 (hence whenever the verse is a substring of the query the
score is always 95); at least 50 percent gives 85; below that, 80 when
at least half of the query's distinct words occur in the verse, else 70
times the word-overlap ratio (never a hard reject in this branch). -/
theorem C7_amended (nq nv : Str) :
    (8 * nv.length ≤ 10 * nq.length → containmentScore nq nv = 95) ∧
    (10 * nq.length < 8 * nv.length → 5 * nv.length ≤ 10 * nq.length →
      containmentScore nq nv = 85) ∧
    (10 * nq.length < 5 * nv.length → wordSetSize nq ≠ 0 →
      wordSetSize nq ≤ 2 * commonCount nq nv → containmentScore nq nv = 80) ∧
    (10 * nq.length < 5 * nv.length →
      ¬ (wordSetSize nq ≠ 0 ∧ wordSetSize nq ≤ 2 * commonCount nq nv) →
      containmentScore nq nv = 70 * commonCount nq nv / wordSetSize nq) ∧
    (isSub nv nq = true → containmentScore nq nv = 95) := by
  refine ⟨?_, ?_, ?_, ?_, ?_⟩
  · intro h1
    unfold containmentScore
    dsimp only
    rw [if_pos h1]
  · intro h1 h2
    unfold containmentScore
    dsimp only
    rw [if_neg (by omega), if_pos h2]
  · intro h1 h2 h3
    unfold containmentScore
    dsimp only
    rw [if_neg (by omega), if_neg (by omega), if_pos ⟨h2, h3⟩]
  · intro h1 h2
    unfold containmentScore
    dsimp only
    rw [if_neg (by omega), if_neg (by omega), if_neg h2]
  · intro h
    have hlen := length_le_of_isSub h
    unfold containmentScore
    dsimp only
    rw [if_pos (by omega)]

/-- Witness for `C7_amended` at concrete containment pairs. -/
theorem C7_witness :
    containmentScore (tl "கககக கககக") (tl "ககக") = 95 ∧
    containmentScore recV1.verse (normalizeText recV1.verse) = 95 :=
  ⟨(C7_amended (tl "கககக கககக") (tl "ககக")).1 (by decide),
   (C7_amended recV1.verse (normalizeText recV1.verse)).2.2.2.2 (by decide)⟩

/-- Claim C8 (confirmed): in the fuzzy-match branch, at fixed raw fuzzy
score `fs`, fixed query/verse lengths and fixed query word-set size `s`,
the validated final score is a non-decreasing function of the
common-word count `c`, i.e. of the word-overlap ratio `c / s`. -/
theorem C8_monotonicity (fs ql vl s c₁ c₂ : ℕ) (hc : c₁ ≤ c₂) :
    fuzzyValidate fs ql vl s c₁ ≤ fuzzyValidate fs ql vl s c₂ :=
  fuzzyValidate_mono fs ql vl s hc

/-- Witness for `C8_monotonicity`: fs = 80, 5 distinct query words,
overlap 1/5 versus 3/5. -/
theorem C8_witness : fuzzyValidate 80 20 40 5 1 ≤ fuzzyValidate 80 20 40 5 3 :=
  C8_monotonicity 80 20 40 5 1 3 (by norm_num)

theorem ratFloor_eq_intFloor (q : ℚ) : Rat.floor q = ⌊q⌋ := by
  rw [Rat.floor_def', Rat.floor_def]

theorem roundTo2_negFifth : roundTo2 (-(1/5 : ℚ)) = -(1/5 : ℚ) := by
  unfold roundTo2
  have h1 : (-(1/5 : ℚ)) * 100 + 1/2 = -(39/2 : ℚ) := by norm_num
  rw [h1, ratFloor_eq_intFloor]
  have h2 : ⌊(-(39/2 : ℚ))⌋ = -20 := by
    rw [Int.floor_eq_iff]
    constructor <;> norm_num
  rw [h2]
  norm_num

theorem roundTo2_sixFifth : roundTo2 (6/5 : ℚ) = (6/5 : ℚ) := by
  unfold roundTo2
  have h1 : ((6/5 : ℚ)) * 100 + 1/2 = (241/2 : ℚ) := by norm_num
  rw [h1, ratFloor_eq_intFloor]
  have h2 : ⌊(241/2 : ℚ)⌋ = 120 := by
    rw [Int.floor_eq_iff]
    constructor <;> norm_num
  rw [h2]
  norm_num

/-- Claim C10 (confirmed): the fallback sentiment score is not confined
to 0.0..1.0 — a text whose words match at least one negative keyword and
no positive keyword scores exactly -0.2, and a text matching at least
one positive keyword and no negative keyword scores exactly 1.2. -/
theorem C10_sentiment_extremes (t : Str) :
    (1 ≤ keywordHits (pySplit t) negativeWords →
      keywordHits (pySplit t) positiveWords = 0 →
      (analyzeSentiment t).score = -(1/5 : ℚ)) ∧
    (1 ≤ keywordHits (pySplit t) positiveWords →
      keywordHits (pySplit t) negativeWords = 0 →
      (analyzeSentiment t).score = (6/5 : ℚ)) := by
  constructor
  · intro hneg hpos
    unfold analyzeSentiment
    dsimp only
    rw [hpos]
    rw [if_neg (by omega), if_neg (by omega), if_pos (by omega)]
    have hne : ((keywordHits (pySplit t) negativeWords : ℚ)) ≠ 0 :=
      Nat.cast_ne_zero.mpr (by omega)
    have harg : (3/10 : ℚ) - (keywordHits (pySplit t) negativeWords : ℚ) /
        ((((0 + keywordHits (pySplit t) negativeWords : ℕ)) : ℚ) * 2) = -(1/5 : ℚ) := by
      rw [Nat.zero_add]
      field_simp
      ring
    rw [harg, roundTo2_negFifth]
  · intro hpos hneg
    unfold analyzeSentiment
    dsimp only
    rw [hneg]
    rw [if_neg (by omega), if_pos (by omega)]
    have hne : ((keywordHits (pySplit t) positiveWords : ℚ)) ≠ 0 :=
      Nat.cast_ne_zero.mpr (by omega)
    have harg : (7/10 : ℚ) + (keywordHits (pySplit t) positiveWords : ℚ) /
        ((((keywordHits (pySplit t) positiveWords + 0 : ℕ)) : ℚ) * 2) = (6/5 : ℚ) := by
      rw [Nat.add_zero]
      field_simp
      ring
    rw [harg, roundTo2_sixFifth]

/-- Witness for `C10_sentiment_extremes`: a lone negative keyword and a
lone positive keyword. -/
theorem C10_witness :
    (analyzeSentiment (tl "துக்கம்")).score = -(1/5 : ℚ) ∧
    (analyzeSentiment (tl "மகிழ்ச்சி")).score = (6/5 : ℚ) :=
  ⟨(C10_sentiment_extremes (tl "துக்கம்")).1 (by decide) (by decide),
   (C10_sentiment_extremes (tl "மகிழ்ச்சி")).2 (by decide) (by decide)⟩

theorem eraseMeaning_fields {v v' : VerseRecord} (h : eraseMeaning v = eraseMeaning v') :
    v.verse_number = v'.verse_number ∧ v.verse = v'.verse ∧ v.chapter = v'.chapter := by
  cases v
  cases v'
  simp only [eraseMeaning, VerseRecord.mk.injEq] at h
  exact ⟨h.1, h.2.1, h.2.2.2⟩

theorem candScore_eraseMeaning (fz : FuzzOracle) (nq : Str) (strictq : Bool)
    (qlen b : ℕ) {v v' : VerseRecord} (h : eraseMeaning v = eraseMeaning v') :
    candScore fz nq strictq qlen b v = candScore fz nq strictq qlen b v' := by
  obtain ⟨h1, h2, h3⟩ := eraseMeaning_fields h
  unfold candScore verseFieldScore chapterFieldScore
  rw [h2, h3]

theorem scanVerse_eraseMeaning (fz : FuzzOracle) (nq : Str) (strictq : Bool)
    (qlen : ℕ) (bk : BookKey) (b : ℕ) {st st' : SearchState} {v v' : VerseRecord}
    (hv : eraseMeaning v = eraseMeaning v')
    (hth : st.threshold = st'.threshold) (hbs : st.bestScore = st'.bestScore)
    (hbest : st.best.map decisionOf = st'.best.map decisionOf) :
    (scanVerse fz nq strictq qlen bk b st v).threshold =
      (scanVerse fz nq strictq qlen bk b st' v').threshold ∧
    (scanVerse fz nq strictq qlen bk b st v).bestScore =
      (scanVerse fz nq strictq qlen bk b st' v').bestScore ∧
    (scanVerse fz nq strictq qlen bk b st v).best.map decisionOf =
      (scanVerse fz nq strictq qlen bk b st' v').best.map decisionOf := by
  have hc := candScore_eraseMeaning fz nq strictq qlen b hv
  have hvn := (eraseMeaning_fields hv).1
  by_cases hcond : st'.bestScore < candScore fz nq strictq qlen b v' ∧
      st'.threshold ≤ candScore fz nq strictq qlen b v'
  · have hcondL : st.bestScore < candScore fz nq strictq qlen b v ∧
        st.threshold ≤ candScore fz nq strictq qlen b v := by
      rw [hc, hbs, hth]
      exact hcond
    simp only [scanVerse]
    rw [if_pos hcondL, if_pos hcond]
    refine ⟨hth, hc, ?_⟩
    simp only [Option.map_some', decisionOf, hvn, hc]
  · have hcondL : ¬ (st.bestScore < candScore fz nq strictq qlen b v ∧
        st.threshold ≤ candScore fz nq strictq qlen b v) := by
      rw [hc, hbs, hth]
      exact hcond
    simp only [scanVerse]
    rw [if_neg hcondL, if_neg hcond]
    exact ⟨hth, hbs, hbest⟩

theorem foldScan_eraseMeaning (fz : FuzzOracle) (nq : Str) (strictq : Bool)
    (qlen : ℕ) (bk : BookKey) (b : ℕ) :
    ∀ {vs vs' : List VerseRecord}, vs.map eraseMeaning = vs'.map eraseMeaning →
    ∀ {st st' : SearchState}, st.threshold = st'.threshold →
    st.bestScore = st'.bestScore →
    st.best.map decisionOf = st'.best.map decisionOf →
    (vs.foldl (scanVerse fz nq strictq qlen bk b) st).threshold =
      (vs'.foldl (scanVerse fz nq strictq qlen bk b) st').threshold ∧
    (vs.foldl (scanVerse fz nq strictq qlen bk b) st).bestScore =
      (vs'.foldl (scanVerse fz nq strictq qlen bk b) st').bestScore ∧
    (vs.foldl (scanVerse fz nq strictq qlen bk b) st).best.map decisionOf =
      (vs'.foldl (scanVerse fz nq strictq qlen bk b) st').best.map decisionOf := by
  intro vs
  induction vs with
  | nil =>
    intro vs' hm
    cases vs' with
    | nil => intro st st' hth hbs hbest; exact ⟨hth, hbs, hbest⟩
    | cons w ws => simp at hm
  | cons v vs ih =>
    intro vs' hm
    cases vs' with
    | nil => simp at hm
    | cons v' vs'' =>
      simp only [List.map_cons, List.cons.injEq] at hm
      intro st st' hth hbs hbest
      simp only [List.foldl_cons]
      obtain ⟨k1, k2, k3⟩ :=
        scanVerse_eraseMeaning fz nq strictq qlen bk b hm.1 hth hbs hbest
      exact ih hm.2 k1 k2 k3

theorem find?_vn_eraseMeaning (key : Str) :
    ∀ {vs vs' : List VerseRecord}, vs.map eraseMeaning = vs'.map eraseMeaning →
    (vs.find? (fun v => v.verse_number == key)).map VerseRecord.verse_number =
      (vs'.find? (fun v => v.verse_number == key)).map VerseRecord.verse_number := by
  intro vs
  induction vs with
  | nil =>
    intro vs' hm
    cases vs' with
    | nil => rfl
    | cons w ws => simp at hm
  | cons v vs ih =>
    intro vs' hm
    cases vs' with
    | nil => simp at hm
    | cons v' vs'' =>
      simp only [List.map_cons, List.cons.injEq] at hm
      have hvn := (eraseMeaning_fields hm.1).1
      simp only [List.find?_cons]
      rw [hvn]
      cases hpv : v'.verse_number == key
      · exact ih hm.2
      · simp [hvn]

theorem numberFind_eraseMeaning (bk : BookKey) (key : Str)
    {vs vs' : List VerseRecord} (hm : vs.map eraseMeaning = vs'.map eraseMeaning) :
    (numberFind bk vs key).map decisionOf = (numberFind bk vs' key).map decisionOf := by
  unfold numberFind
  rw [Option.map_map, Option.map_map]
  have h := find?_vn_eraseMeaning key hm
  have hcomp : ∀ (l : List VerseRecord),
      (l.find? (fun v => v.verse_number == key)).map
        (decisionOf ∘ fun v => MatchResult.mk v 100 bk none) =
      ((l.find? (fun v => v.verse_number == key)).map VerseRecord.verse_number).map
        (fun n => (n, bk, 100, (none : Option ℕ))) := by
    intro l
    rw [Option.map_map]
    rfl
  rw [hcomp, hcomp, h]

theorem scanBook_eraseMeaning (fz : FuzzOracle) (nq : Str) (strictq : Bool)
    (qlen : ℕ) (bk : BookKey) {vs vs' : List VerseRecord}
    (hm : vs.map eraseMeaning = vs'.map eraseMeaning) {st st' : SearchState}
    (hth : st.threshold = st'.threshold) (hbs : st.bestScore = st'.bestScore)
    (hbest : st.best.map decisionOf = st'.best.map decisionOf) :
    (scanBook fz nq strictq qlen bk vs st).threshold =
      (scanBook fz nq strictq qlen bk vs' st').threshold ∧
    (scanBook fz nq strictq qlen bk vs st).bestScore =
      (scanBook fz nq strictq qlen bk vs' st').bestScore ∧
    (scanBook fz nq strictq qlen bk vs st).best.map decisionOf =
      (scanBook fz nq strictq qlen bk vs' st').best.map decisionOf := by
  unfold scanBook
  dsimp only
  exact foldScan_eraseMeaning fz nq strictq qlen bk (bookBoost100 bk nq) hm
    (by show bookThreshold bk nq st.threshold = bookThreshold bk nq st'.threshold
        rw [hth])
    hbs hbest

/-- Claim C9 (confirmed): two corpus snapshots that differ only in the
meaning/gloss fields of their records produce the same match decision
(winning verse number, book, score, boost) and the same `analyze`
found/confidence — the meaning field is never used for scoring. -/
theorem C9_meaning_independent (fz : FuzzOracle) (q : Str)
    (thk thk' kmb kmb' : List VerseRecord)
    (h1 : thk.map eraseMeaning = thk'.map eraseMeaning)
    (h2 : kmb.map eraseMeaning = kmb'.map eraseMeaning) :
    (fuzzySearchAllBooks fz thk kmb q).map decisionOf =
      (fuzzySearchAllBooks fz thk' kmb' q).map decisionOf ∧
    (analyze fz thk kmb q).found = (analyze fz thk' kmb' q).found ∧
    (analyze fz thk kmb q).confidence = (analyze fz thk' kmb' q).confidence := by
  have hsearch : ∀ (r : Str), (fuzzySearchAllBooks fz thk kmb r).map decisionOf =
      (fuzzySearchAllBooks fz thk' kmb' r).map decisionOf := by
    intro r
    unfold fuzzySearchAllBooks
    dsimp only
    by_cases hnum : isNumberSearch (normalizeText r) = true
    · rw [if_pos hnum, if_pos hnum]
      have ht := numberFind_eraseMeaning BookKey.thirukkural (stripWS (normalizeText r)) h1
      have hk := numberFind_eraseMeaning BookKey.kamba (stripWS (normalizeText r)) h2
      cases hA : numberFind .thirukkural thk (stripWS (normalizeText r)) with
      | some m =>
        rw [hA] at ht
        cases hA' : numberFind .thirukkural thk' (stripWS (normalizeText r)) with
        | some m' =>
          rw [hA'] at ht
          simpa using ht
        | none =>
          rw [hA'] at ht
          simp at ht
      | none =>
        rw [hA] at ht
        cases hA' : numberFind .thirukkural thk' (stripWS (normalizeText r)) with
        | some m' =>
          rw [hA'] at ht
          simp at ht
        | none =>
          exact hk
    · rw [if_neg hnum, if_neg hnum]
      obtain ⟨k1, k2, k3⟩ := @scanBook_eraseMeaning fz (normalizeText r)
        (strictMode (normalizeText r)) (normalizeText r).length BookKey.thirukkural
        thk thk' h1 ⟨none, 0, classifierThreshold (normalizeText r)⟩
        ⟨none, 0, classifierThreshold (normalizeText r)⟩ rfl rfl rfl
      obtain ⟨j1, j2, j3⟩ := scanBook_eraseMeaning fz (normalizeText r)
        (strictMode (normalizeText r)) (normalizeText r).length .kamba h2 k1 k2 k3
      cases hB : (scanBook fz (normalizeText r) (strictMode (normalizeText r))
          (normalizeText r).length .kamba kmb
          (scanBook fz (normalizeText r) (strictMode (normalizeText r))
            (normalizeText r).length .thirukkural thk
            ⟨none, 0, classifierThreshold (normalizeText r)⟩)).best with
      | none =>
        rw [hB] at j3
        cases hB' : (scanBook fz (normalizeText r) (strictMode (normalizeText r))
            (normalizeText r).length .kamba kmb'
            (scanBook fz (normalizeText r) (strictMode (normalizeText r))
              (normalizeText r).length .thirukkural thk'
              ⟨none, 0, classifierThreshold (normalizeText r)⟩)).best with
        | none => rfl
        | some m' =>
          rw [hB'] at j3
          simp at j3
      | some m =>
        rw [hB] at j3
        cases hB' : (scanBook fz (normalizeText r) (strictMode (normalizeText r))
            (normalizeText r).length .kamba kmb'
            (scanBook fz (normalizeText r) (strictMode (normalizeText r))
              (normalizeText r).length .thirukkural thk'
              ⟨none, 0, classifierThreshold (normalizeText r)⟩)).best with
        | none =>
          rw [hB'] at j3
          simp at j3
        | some m' =>
          rw [hB'] at j3
          simp only [Option.map_some', Option.some.injEq] at j3
          have hdec := j3
          simp only [decisionOf, Prod.mk.injEq] at hdec
          have hms : m.match_score = m'.match_score := hdec.2.2.1
          dsimp only
          rw [hms]
          split_ifs
          · rfl
          · simp only [Option.map_some', Option.some.injEq]
            exact j3
  refine ⟨hsearch q, ?_⟩
  unfold analyze
  by_cases hs : stripWS q = []
  · rw [if_pos hs, if_pos hs]
    exact ⟨rfl, rfl⟩
  · rw [if_neg hs, if_neg hs]
    dsimp only
    by_cases hp : preprocessForAnalysis q = []
    · rw [if_pos hp, if_pos hp]
      exact ⟨rfl, rfl⟩
    · rw [if_neg hp, if_neg hp]
      have h := hsearch (preprocessForAnalysis q)
      cases hA : fuzzySearchAllBooks fz thk kmb (preprocessForAnalysis q) with
      | some m =>
        rw [hA] at h
        cases hA' : fuzzySearchAllBooks fz thk' kmb' (preprocessForAnalysis q) with
        | some m' =>
          rw [hA'] at h
          simp only [Option.map_some', Option.some.injEq] at h
          simp only [decisionOf, Prod.mk.injEq] at h
          refine ⟨rfl, ?_⟩
          dsimp only
          rw [h.2.2.1]
        | none =>
          rw [hA'] at h
          simp at h
      | none =>
        rw [hA] at h
        cases hA' : fuzzySearchAllBooks fz thk' kmb' (preprocessForAnalysis q) with
        | some m' =>
          rw [hA'] at h
          simp at h
        | none =>
          exact ⟨rfl, rfl⟩

/-- Witness for `C9_meaning_independent`: the same verse stored with two
different glosses. -/
theorem C9_witness :
    (fuzzySearchAllBooks zeroFuzz [recQ11Thk] [] q11).map decisionOf =
      (fuzzySearchAllBooks zeroFuzz [⟨tl "1", q11, tl "வேறு பொருள்", tl ""⟩] [] q11).map
        decisionOf ∧
    (analyze zeroFuzz [recQ11Thk] [] q11).found =
      (analyze zeroFuzz [⟨tl "1", q11, tl "வேறு பொருள்", tl ""⟩] [] q11).found ∧
    (analyze zeroFuzz [recQ11Thk] [] q11).confidence =
      (analyze zeroFuzz [⟨tl "1", q11, tl "வேறு பொருள்", tl ""⟩] [] q11).confidence :=
  C9_meaning_independent zeroFuzz q11 [recQ11Thk]
    [⟨tl "1", q11, tl "வேறு பொருள்", tl ""⟩] [] [] (by decide) (by decide)
